import Mathlib

/-!
Verification development for the heap-file storage layer (`src/heapfile.C`).

The C code is shallowly embedded as executable Lean functions over an explicit
state.  Machine integers are modelled as `Int` (the code performs no wrapping
arithmetic on the quantities involved); C status codes become the inductive
`Status`; buffer-pool activity is recorded as an explicit trace of `BufOp`
events so that pin/unpin discipline and ordering can be stated.  The page
image, the buffer pool and the raw file layer are external collaborators that
are not part of `src/`; they are modelled from the spec (sections 3 and 6) as
noted on each definition.  Loops in the C code (the `while (true)` in
`scanNext`) are embedded with an explicit fuel argument; the theorems hold for
every sufficiently large fuel, and concrete witnesses instantiate it.
-/

namespace HF

/-- Status codes returned by the heap-file layer.  `NOFUEL` is an artefact of
the fuel-based embedding of the C `while` loop and is never produced when the
fuel is large enough. -/
inductive Status where
  | OK
  | FILEEOF
  | NORECORDS
  | ENDOFPAGE
  | NOSPACE
  | INVALIDRECLEN
  | BADSCANPARM
  | RECNOTFOUND
  | BADPAGE
  | NOFUEL
deriving DecidableEq, Repr

/-- Record identifier: a (page, slot) pair, as in `heapfile.h`. -/
structure RID where
  pageNo : Int
  slotNo : Int
deriving DecidableEq, Repr

/-- The sentinel null RID (both fields -1). -/
def NULLRID : RID := ⟨-1, -1⟩

/-- A record: a byte buffer.  The C `Record` carries a data pointer and a
length; here `data` is the byte list and the length is derived from it. -/
structure Record where
  data : List Int
deriving DecidableEq, Repr

/-- `rec.length` of the C code. -/
def Record.len (r : Record) : Int := r.data.length

/-- Modelled from the spec (section 6, page image): a slotted data page.  The
slot array is `slots` (index = slot number, `none` = empty/deleted slot), the
forward chain link is `nextPage` (terminator = -1), and `free` is the free
byte count governing `insertSlot`s `NoSpace` answer. -/
structure Page where
  slots : List (Option Record)
  nextPage : Int
  free : Int
deriving DecidableEq, Repr

/-- Slot numbers of the live records of a page, in slot order. -/
def liveSlots (pg : Page) : List Nat :=
  (List.range pg.slots.length).filter (fun i => (pg.slots.getD i none).isSome)

/-- Live slots strictly after slot `j`, in slot order. -/
def liveAfter (pg : Page) (j : Int) : List Nat :=
  (liveSlots pg).filter (fun i => decide (j < (i : Int)))

/-- Modelled from the spec (section 6): `firstSlot() → slotId | Empty`
(`Page::firstRecord`, status `NORECORDS` when the page is empty). -/
def Page.firstSlot (pg : Page) : Option Nat := (liveSlots pg).head?

/-- Modelled from the spec (section 6): `nextSlot(afterSlotId) → slotId |
EndOfPage` (`Page::nextRecord`): the first live slot strictly after the given
slot number. -/
def nextLiveSlot (pg : Page) (after : Int) : Option Nat :=
  (liveSlots pg).find? (fun i => decide (after < (i : Int)))

/-- Modelled from the spec (section 6): `getSlot(slotId) → bytes | NotFound`
(`Page::getRecord`). -/
def Page.getRec (pg : Page) (rid : RID) : Except Status Record :=
  if 0 ≤ rid.slotNo then
    match pg.slots.getD rid.slotNo.toNat none with
    | some r => .ok r
    | none => .error .RECNOTFOUND
  else .error .RECNOTFOUND

/-- Modelled from the spec (section 6): `insertSlot(bytes) → slotId | NoSpace`
(`Page::insertRecord`): appends the record in the next slot when it fits in
the page's free space. -/
def Page.insertRec (pg : Page) (r : Record) : Status × Nat × Page :=
  if r.len ≤ pg.free then
    (.OK, pg.slots.length,
      { pg with slots := pg.slots ++ [some r], free := pg.free - r.len })
  else (.NOSPACE, 0, pg)

/-- Modelled from the spec (section 6): `deleteSlot(slotId) → ok | NotFound`
(`Page::deleteRecord`). -/
def Page.deleteRec (pg : Page) (rid : RID) : Status × Page :=
  if 0 ≤ rid.slotNo ∧ (pg.slots.getD rid.slotNo.toNat none).isSome then
    (.OK, { pg with slots := pg.slots.set rid.slotNo.toNat none })
  else (.RECNOTFOUND, pg)

/-- The data pages of the underlying file, as an association list from page
number to page image, plus the next fresh page number handed out by
`allocPage`.  (The buffer pool is transparent to a single handle: the handle
always sees its own writes, so page images are read and written here
directly.) -/
structure DBFile where
  pages : List (Int × Page)
  nextPageNo : Int
deriving DecidableEq, Repr

/-- Look a page image up by page number. -/
def pageOf (f : DBFile) (n : Int) : Option Page :=
  (f.pages.find? (fun e => e.1 == n)).map (fun e => e.2)

/-- Overwrite the image of page `n`. -/
def setPage (f : DBFile) (n : Int) (pg : Page) : DBFile :=
  { f with pages := f.pages.map (fun e => if e.1 == n then (n, pg) else e) }

/-- The header page of a heap file (`FileHdrPage` in `heapfile.h`; the file
name field plays no role in the claims). -/
structure FileHdrPage where
  recCnt : Int
  pageCnt : Int
  firstPage : Int
  lastPage : Int
deriving DecidableEq, Repr

/-- One buffer-pool event of a handle.  `read` is a successful
`bufMgr->readPage` (which pins the page), `alloc` a successful
`bufMgr->allocPage` (which pins the fresh page), and `unpin` is a call to
`bufMgr->unPinPage` with the dirty bit passed. -/
inductive BufOp where
  | read (pageNo : Int)
  | unpin (pageNo : Int) (dirty : Bool)
  | alloc (pageNo : Int)
deriving DecidableEq, Repr

/-- Field types of the scan filter (`Datatype` in the C headers). -/
inductive Datatype where
  | STRING
  | INTEGER
  | FLOAT
deriving DecidableEq, Repr

/-- Comparison operators of the scan filter (`Operator` in the C headers). -/
inductive Operator where
  | LT
  | LTE
  | EQ
  | GTE
  | GT
  | NE
deriving DecidableEq, Repr

/-- The filter parameters stored by a successful `startScan` (the C fields
`offset`, `length`, `type`, `filter`, `op`; the filter value is kept as its
raw byte buffer exactly as the C code keeps a `char*`). -/
structure FilterSpec where
  offset : Int
  length : Int
  type : Datatype
  filter : List Int
  op : Operator
deriving DecidableEq, Repr

/-- The state of one open heap-file handle: the mutable fields of
`HeapFile`/`HeapFileScan` plus the page images it can reach.  `curPage` is the
C `curPage` pointer: `some n` means it points at the buffer frame of page `n`,
`none` is the NULL pointer.  Note that `curPage` and `curPageNo` are distinct
fields exactly as in the C code, and the code paths that let them disagree are
preserved. -/
structure ScanState where
  file : DBFile
  header : FileHdrPage
  headerPageNo : Int
  hdrDirty : Bool
  curPageNo : Int
  curPage : Option Int
  curDirty : Bool
  curRec : RID
  filter : Option FilterSpec
  markedPageNo : Int
  markedRec : RID
deriving DecidableEq, Repr

attribute [ext] ScanState

/-- Sign of an integer, as used on the `diff` of `matchRec`. -/
def sgn (d : Int) : Int := if d < 0 then -1 else if d = 0 then 0 else 1

/-- Sign of a rational (for the FLOAT branch of `matchRec`). -/
def sgnQ (d : Rat) : Int := if d < 0 then -1 else if d = 0 then 0 else 1

/-- The final `switch(op)` of `matchRec`: the C code compares `diff` against
zero, which depends only on the sign of `diff`. -/
def applyOp (o : Operator) (s : Int) : Bool :=
  match o with
  | .LT => decide (s < 0)
  | .LTE => decide (s ≤ 0)
  | .EQ => decide (s = 0)
  | .GTE => decide (0 ≤ s)
  | .GT => decide (0 < s)
  | .NE => decide (s ≠ 0)

/-- Byte at offset `i` of a buffer (0 when out of range; `matchRec` only reads
in bounds thanks to its length guard). -/
def byteAt (bs : List Int) (i : Int) : Int :=
  if 0 ≤ i then bs.getD i.toNat 0 else 0

/-- The unsigned 32-bit value of the 4 bytes at `off`, little endian. -/
def readU32LE (bs : List Int) (off : Int) : Int :=
  byteAt bs off + 256 * byteAt bs (off + 1) + 65536 * byteAt bs (off + 2)
    + 16777216 * byteAt bs (off + 3)

/-- The `memcpy(&iattr, data + offset, sizeof(int))` of `matchRec`: the
two's-complement `int` stored at `off`. -/
def readIntLE (bs : List Int) (off : Int) : Int :=
  let u := readU32LE bs off
  if u < 2147483648 then u else u - 4294967296

/-- The IEEE binary32 value stored at `off`, decoded exactly into a rational.
Finite floats are decoded exactly; the exponent-255 encodings (infinities and
NaNs) are mapped to large finite rationals, a deliberate model boundary: the
theorems below never evaluate the FLOAT branch on such encodings, and on
finite operands the sign of the exact rational difference equals the sign of
the C `float` subtraction (IEEE subtraction is correctly rounded and, with
gradual underflow, yields zero only on equal operands). -/
def floatDecodeQ (bs : List Int) (off : Int) : Rat :=
  let u := readU32LE bs off
  let sf : Rat := if 2147483648 ≤ u then -1 else 1
  let e : Int := (u / 8388608) % 256
  let m : Int := u % 8388608
  if e = 0 then sf * (m : Rat) * (2 : Rat) ^ (-149 : Int)
  else sf * ((8388608 + m : Int) : Rat) * (2 : Rat) ^ (e - 150)

/-- The sign of C `strncmp(a, b, n)`: compares byte by byte, stopping at the
first difference, at a null byte (after comparing it), or after `n` bytes. -/
def strncmpM : List Int → List Int → Nat → Int
  | _, _, 0 => 0
  | a, b, n + 1 =>
    let ca := a.headD 0
    let cb := b.headD 0
    if ca ≠ cb then sgn (ca - cb)
    else if ca = 0 then 0
    else strncmpM a.tail b.tail n

/-- `HeapFileScan::matchRec`.  The filter-absent and out-of-bounds guards are
verbatim; each branch computes the sign of the C `diff` (the C code converts
to `float` and compares against zero, which preserves exactly the sign of the
integer difference, of the exact float difference, and of `strncmp`). -/
def matchRec (s : ScanState) (rec : Record) : Bool :=
  match s.filter with
  | none => true
  | some fs =>
    if fs.offset + fs.length > rec.len then false
    else
      let d : Int :=
        match fs.type with
        | .INTEGER => sgn (readIntLE rec.data fs.offset - readIntLE fs.filter 0)
        | .FLOAT => sgnQ (floatDecodeQ rec.data fs.offset - floatDecodeQ fs.filter 0)
        | .STRING => strncmpM (rec.data.drop fs.offset.toNat) fs.filter fs.length.toNat
      applyOp fs.op d

/-- `HeapFileScan::startScan`.  A null filter value disables filtering and
succeeds.  Otherwise the C parameter check is
`(offset < 0 || length < 1) || (type not in {STRING, INTEGER, FLOAT}) ||
(type == INTEGER && length != sizeof(int) || type == FLOAT && length !=
sizeof(float)) || (op not in the six comparators)`; over the embedded enums
the type and op membership tests are vacuously true, and
`sizeof(int) = sizeof(float) = 4`.  On violation the function returns
`BADSCANPARM` and, as in the C code, changes no field. -/
def startScan (off len : Int) (ty : Datatype) (fil : Option (List Int))
    (o : Operator) (s : ScanState) : Status × ScanState :=
  match fil with
  | none => (.OK, { s with filter := none })
  | some fv =>
    if off < 0 ∨ len < 1 ∨ (ty = .INTEGER ∧ len ≠ 4) ∨ (ty = .FLOAT ∧ len ≠ 4) then
      (.BADSCANPARM, s)
    else
      (.OK, { s with filter := some ⟨off, len, ty, fv, o⟩ })

/-- Prefix a buffer-op trace onto the result of a scan step. -/
def withTrace (tr : List BufOp) (r : Status × RID × ScanState × List BufOp) :
    Status × RID × ScanState × List BufOp :=
  (r.1, r.2.1, r.2.2.1, tr ++ r.2.2.2)

/-- The cursor state after `scanNext` adopts page `np` as current: `curPageNo
= np`, `curPage` pointing at its image, dirty flag reset, `curRec = NULLRID`
(lines 390-395 and 327-336 of the C code). -/
def advance (s : ScanState) (np : Int) : ScanState :=
  { s with curPageNo := np, curPage := some np, curDirty := false, curRec := NULLRID }

/-- The `while (true)` loop of `HeapFileScan::scanNext` (lines 361-415),
entered whenever a page is pinned.  Each iteration asks the current page for
the record after `curRec`; on `ENDOFPAGE`/`NORECORDS` it follows the forward
link: `getNextPage`, the -1 terminator test (returning `FILEEOF` with the page
still pinned), then `unPinPage` of `curPageNo` FOLLOWED by `readPage` of the
next page, and an empty next page `continue`s the loop.  `fuel` bounds the
iterations (the C loop is bounded by the finite page chain); unpin never fails
in the model, and on a failed `readPage` the `curPage` out-parameter is left
unchanged exactly as a failing `bufMgr->readPage` leaves it. -/
def scanLoop : Nat → ScanState → Status × RID × ScanState × List BufOp
  | 0, s => (.NOFUEL, NULLRID, s, [])
  | fuel + 1, s =>
    match s.curPage with
    | none => (.BADPAGE, NULLRID, s, [])
    | some pn =>
      match pageOf s.file pn with
      | none => (.BADPAGE, NULLRID, s, [])
      | some pg =>
        match nextLiveSlot pg s.curRec.slotNo with
        | some i =>
          let r : RID := ⟨pn, (i : Int)⟩
          let s1 := { s with curRec := r }
          match pg.getRec r with
          | .error st => (st, NULLRID, s1, [])
          | .ok rec =>
            if matchRec s1 rec then (.OK, r, s1, []) else scanLoop fuel s1
        | none =>
          let np := pg.nextPage
          if np = -1 then (.FILEEOF, NULLRID, s, [])
          else
            match pageOf s.file np with
            | none =>
              (.BADPAGE, NULLRID, { s with curPage := none, curPageNo := np },
                [.unpin s.curPageNo s.curDirty])
            | some pg2 =>
              let s2 := advance s np
              let tr : List BufOp := [.unpin s.curPageNo s.curDirty, .read np]
              match pg2.firstSlot with
              | none => withTrace tr (scanLoop fuel s2)
              | some j =>
                let r : RID := ⟨np, (j : Int)⟩
                let s3 := { s2 with curRec := r }
                match pg2.getRec r with
                | .error st => (st, NULLRID, s3, tr)
                | .ok rec =>
                  if matchRec s3 rec then (.OK, r, s3, tr)
                  else withTrace tr (scanLoop fuel s3)

/-- `HeapFileScan::scanNext` (lines 313-416).  The `curPageNo < 0` EOF check
comes first; with no pinned page the first-call path assigns `curPageNo` from
the header's `firstPage`, tests the -1 terminator, pins the page and fetches
its first record (an empty FIRST page unpins, sets `curPageNo = -1` and fails
with `FILEEOF`); with a pinned page control goes straight to the loop. -/
def scanNextF (fuel : Nat) (s : ScanState) : Status × RID × ScanState × List BufOp :=
  if s.curPageNo < 0 then (.FILEEOF, NULLRID, s, [])
  else
    match s.curPage with
    | some _ => scanLoop fuel s
    | none =>
      let p1 := s.header.firstPage
      let sA := { s with curPageNo := p1 }
      if p1 = -1 then (.FILEEOF, NULLRID, sA, [])
      else
        match pageOf s.file p1 with
        | none => (.BADPAGE, NULLRID, sA, [])
        | some pg =>
          let s1 := advance s p1
          match pg.firstSlot with
          | none =>
            (.FILEEOF, NULLRID, { s1 with curPageNo := -1, curPage := none },
              [.read p1, .unpin p1 false])
          | some i =>
            let r : RID := ⟨p1, (i : Int)⟩
            let s2 := { s1 with curRec := r }
            match pg.getRec r with
            | .error st => (st, NULLRID, s2, [.read p1])
            | .ok rec =>
              if matchRec s2 rec then (.OK, r, s2, [.read p1])
              else withTrace [.read p1] (scanLoop fuel s2)

/-- Drive a scan: call `scanNextF F` repeatedly, collecting the produced RIDs,
until a call fails; `n` bounds the number of calls. -/
def runScanF : Nat → Nat → ScanState → List RID × Status × ScanState
  | 0, _, s => ([], .NOFUEL, s)
  | n + 1, F, s =>
    match scanNextF F s with
    | (.OK, rid, s1, _) =>
      let r := runScanF n F s1
      (rid :: r.1, r.2.1, r.2.2)
    | (st, _, s1, _) => ([], st, s1)

/-- `HeapFileScan::endScan` (lines 262-275): unpin `curPageNo` if a page is
pinned and clear the cursor fields. -/
def endScan (s : ScanState) : Status × ScanState × List BufOp :=
  match s.curPage with
  | some _ =>
    (.OK, { s with curPage := none, curPageNo := 0, curDirty := false },
      [.unpin s.curPageNo s.curDirty])
  | none => (.OK, s, [])

/-- `HeapFileScan::markScan` (lines 282-288). -/
def markScan (s : ScanState) : Status × ScanState :=
  (.OK, { s with markedPageNo := s.curPageNo, markedRec := s.curRec })

/-- `HeapFileScan::resetScan` (lines 290-310).  When the marked page differs
from the current one: unpin the current page if pinned, restore `curPageNo`
and `curRec`, then re-read the marked page (on a failed read the stale
`curPage` pointer is left in place, as in the C code); otherwise only `curRec`
is restored and no buffer call is made. -/
def resetScan (s : ScanState) : Status × ScanState × List BufOp :=
  if s.markedPageNo ≠ s.curPageNo then
    let tr : List BufOp :=
      match s.curPage with
      | some _ => [.unpin s.curPageNo s.curDirty]
      | none => []
    let s1 := { s with curPageNo := s.markedPageNo, curRec := s.markedRec }
    match pageOf s.file s.markedPageNo with
    | none => (.BADPAGE, s1, tr)
    | some _ =>
      (.OK, { s1 with curPage := some s.markedPageNo, curDirty := false },
        tr ++ [.read s.markedPageNo])
  else (.OK, { s with curRec := s.markedRec }, [])

/-- `HeapFile::getRecord(rid, rec)` (lines 190-224).  If `rid.pageNo` is not
the current page: unpin the current page if one is pinned, then `readPage` the
target — on a failed read the function returns with `curPage` still holding
the STALE pointer to the page just unpinned (the C out-parameter is not
written on failure and `curPage` is never cleared on this path).  The final
`curPage->getRecord` dereferences `curPage`; the result `none` models the
undefined behaviour of dereferencing it when it is NULL. -/
def getRecordByRid (rid : RID) (s : ScanState) :
    Option (Status × Option Record × ScanState × List BufOp) :=
  let step : Status × ScanState × List BufOp :=
    if s.curPageNo ≠ rid.pageNo then
      let tr : List BufOp :=
        match s.curPage with
        | some _ => [.unpin s.curPageNo s.curDirty]
        | none => []
      match pageOf s.file rid.pageNo with
      | none => (.BADPAGE, s, tr)
      | some _ =>
        (.OK, { s with
                  curPage := some rid.pageNo, curPageNo := rid.pageNo,
                  curDirty := false }, tr ++ [.read rid.pageNo])
    else (.OK, s, [])
  match step with
  | (.OK, s1, tr) =>
    match s1.curPage with
    | none => none
    | some pn =>
      match pageOf s1.file pn with
      | none => none
      | some pg =>
        match pg.getRec rid with
        | .ok r => some (.OK, some r, { s1 with curRec := rid }, tr)
        | .error st => some (st, none, s1, tr)
  | (st, s1, tr) => some (st, none, s1, tr)

/-- `HeapFileScan::getRecord()` (lines 422-425): `return
curPage->getRecord(curRec, rec);` with no NULL check on `curPage`.  The result
`none` models the undefined behaviour (null-pointer dereference) taken when no
page is pinned. -/
def getRecordCur (s : ScanState) : Option (Except Status Record) :=
  match s.curPage with
  | none => none
  | some pn =>
    match pageOf s.file pn with
    | none => none
    | some pg => some (pg.getRec s.curRec)

/-- `HeapFileScan::deleteRecord` (lines 428-440): deletes `curRec` from the
current page and then, REGARDLESS of whether that page-level delete succeeded,
marks the page dirty, decrements the header's `recCnt` and marks the header
dirty, returning the page-level status.  `none` models the null dereference
when no page is pinned. -/
def deleteRecord (s : ScanState) : Option (Status × ScanState) :=
  match s.curPage with
  | none => none
  | some pn =>
    match pageOf s.file pn with
    | none => none
    | some pg =>
      let r := pg.deleteRec s.curRec
      some (r.1,
        { s with
          file := setPage s.file pn r.2, curDirty := true,
          header := { s.header with recCnt := s.header.recCnt - 1 },
          hdrDirty := true })

/-- `HeapFile::~HeapFile` (lines 147-176): unpin `curPageNo` when a data page
is pinned, then unpin the header page; only the buffer-op trace matters for
the claims. -/
def destructHF (s : ScanState) : List BufOp :=
  (match s.curPage with
   | some _ => [BufOp.unpin s.curPageNo s.curDirty]
   | none => []) ++ [BufOp.unpin s.headerPageNo s.hdrDirty]

/-- Modelled from the spec (section 4.4): the maximum record payload of a data
page, `PAGESIZE - DPFIXED` in the C code (the headers defining the two
constants are not part of `src/`); the exact value is irrelevant to the
claims. -/
def dataPageCap : Int := 1000

/-- A freshly initialised data page (`newPage->init(newPageNo);
newPage->setNextPage(-1)`). -/
def emptyPage : Page := { slots := [], nextPage := -1, free := dataPageCap }

/-- `bufMgr->allocPage`: hands out the fresh page number and appends an
(uninitialised, here empty) image for it. -/
def allocPage (f : DBFile) : Int × DBFile :=
  (f.nextPageNo,
    { pages := f.pages ++ [(f.nextPageNo, emptyPage)], nextPageNo := f.nextPageNo + 1 })

/-- The body of `InsertFileScan::insertRecord` once a current page is pinned
(lines 536-591): try the insert; on success bump `recCnt` and dirty the
header and page; on `NOSPACE` allocate and initialise a new page, link the old
page to it, update `lastPage`/`pageCnt`, unpin the old page, adopt the new
page and retry.  `setNextPage` and `unPinPage` never fail in the model, so
those C error arms are dead; `none` models the null dereference of `curPage`. -/
def insertCore (rec : Record) (s : ScanState) (tr0 : List BufOp) :
    Option (Status × RID × ScanState × List BufOp) :=
  match s.curPage with
  | none => none
  | some pn =>
    match pageOf s.file pn with
    | none => none
    | some pg =>
      match pg.insertRec rec with
      | (.OK, slot, pg1) =>
        some (.OK, ⟨pn, (slot : Int)⟩,
          { s with
            file := setPage s.file pn pg1,
            header := { s.header with recCnt := s.header.recCnt + 1 },
            hdrDirty := true, curDirty := true }, tr0)
      | (.NOSPACE, _, _) =>
        let npn := (allocPage s.file).1
        let f1 := (allocPage s.file).2
        let f2 := setPage f1 npn emptyPage
        let f3 := setPage f2 pn { pg with nextPage := npn }
        let s2 := { s with
          file := f3,
          header := { s.header with lastPage := npn, pageCnt := s.header.pageCnt + 1 },
          hdrDirty := true, curPage := some npn, curPageNo := npn, curDirty := true }
        let tr := tr0 ++ [BufOp.alloc npn, BufOp.unpin s.curPageNo s.curDirty]
        match pageOf s2.file npn with
        | none => none
        | some npg =>
          match npg.insertRec rec with
          | (.OK, slot, npg1) =>
            some (.OK, ⟨npn, (slot : Int)⟩,
              { s2 with
                file := setPage s2.file npn npg1,
                header := { s2.header with recCnt := s2.header.recCnt + 1 } }, tr)
          | (st, _, _) => some (st, NULLRID, s2, tr)
      | (st, _, _) => some (st, NULLRID, s, tr0)

/-- `InsertFileScan::insertRecord` (lines 514-592): the record-length guard,
then pinning the header's `lastPage` when no page is pinned (on a failed read
the function returns with `curPage` unchanged), then `insertCore`. -/
def insertRecord (rec : Record) (s : ScanState) :
    Option (Status × RID × ScanState × List BufOp) :=
  if rec.len > dataPageCap then some (.INVALIDRECLEN, NULLRID, s, [])
  else
    match s.curPage with
    | none =>
      let lp := s.header.lastPage
      match pageOf s.file lp with
      | none => some (.BADPAGE, NULLRID, { s with curPageNo := lp }, [])
      | some _ =>
        insertCore rec
          { s with curPageNo := lp, curPage := some lp, curDirty := false }
          [BufOp.read lp]
    | some _ => insertCore rec s []

/-- Drive `insertRecord` over a list of records, collecting the returned RIDs;
fails (`none`) as soon as one insert does not return `OK`. -/
def insertMany : List Record → ScanState → Option (List RID × ScanState)
  | [], s => some ([], s)
  | r :: rest, s =>
    match insertRecord r s with
    | some (.OK, rid, s1, _) =>
      (insertMany rest s1).map (fun p => (rid :: p.1, p.2))
    | _ => none

/-- The handle state right after a successful `HeapFile::HeapFile` +
`HeapFileScan::HeapFileScan` construction (lines 97-144, 226-230): header page
pinned, the header's first data page pinned as current, `curRec = NULLRID`,
both dirty flags false, no filter.  The C `markedPageNo`/`markedRec` start
uninitialised; 0 and `NULLRID` stand in for them. -/
def freshScan (f : DBFile) (hpn : Int) (hdr : FileHdrPage) : ScanState :=
  { file := f, header := hdr, headerPageNo := hpn, hdrDirty := false,
    curPageNo := hdr.firstPage, curPage := some hdr.firstPage,
    curDirty := false, curRec := NULLRID, filter := none,
    markedPageNo := 0, markedRec := NULLRID }

/-- The buffer-op trace of the constructor: `readPage` of the header page then
of the first data page. -/
def ctorTrace (s : ScanState) : List BufOp :=
  [.read s.headerPageNo, .read s.header.firstPage]

/-- The page chain of a heap file: `isChainB f start ch` holds when following
the forward links from `start` visits exactly the (non-negative) page numbers
in `ch` and ends at the -1 terminator (spec section 3: `pageCnt` pages
reachable from `firstPage`). -/
def isChainB (f : DBFile) : Int → List Int → Bool
  | start, [] => start == -1
  | start, p :: rest =>
    p == start && decide (0 ≤ p) &&
      (match pageOf f start with
       | some pg => isChainB f pg.nextPage rest
       | none => false)

/-- The RIDs of the live records of page `pn`, in slot order. -/
def liveRIDs (pn : Int) (pg : Page) : List RID :=
  (liveSlots pg).map (fun i : Nat => ⟨pn, (i : Int)⟩)

/-- All live RIDs of a chain, in page-chain order then slot order. -/
def chainRIDs (f : DBFile) : List Int → List RID
  | [] => []
  | p :: rest =>
    (match pageOf f p with
     | some pg => liveRIDs p pg
     | none => []) ++ chainRIDs f rest

/-! ### Concrete heap files used by witnesses and counterexamples -/

/-- A heap file with a single data page (page 2) holding one record. -/
def onePageFile : DBFile := ⟨[(2, ⟨[some ⟨[1]⟩], -1, 0⟩)], 3⟩

/-- Header of `onePageFile`. -/
def onePageHdr : FileHdrPage := ⟨1, 1, 2, 2⟩

/-- A freshly opened scan on `onePageFile` (header page 1 pinned, page 2
pinned as current). -/
def onePageScan : ScanState := freshScan onePageFile 1 onePageHdr

/-- A heap file with two chained data pages, one record each. -/
def twoPageFile : DBFile :=
  ⟨[(2, ⟨[some ⟨[1]⟩], 3, 0⟩), (3, ⟨[some ⟨[2]⟩], -1, 0⟩)], 4⟩

/-- A freshly opened scan on `twoPageFile`. -/
def twoPageScan : ScanState := freshScan twoPageFile 1 ⟨2, 2, 2, 3⟩

/-- A heap file whose chain is page 2 (slots: live, deleted, live), page 3
(empty intermediate page), page 4 (one live record). -/
def tinyFile : DBFile :=
  ⟨[(2, ⟨[some ⟨[1]⟩, none, some ⟨[2]⟩], 3, 0⟩),
    (3, ⟨[], 4, 0⟩),
    (4, ⟨[some ⟨[3]⟩], -1, 0⟩)], 5⟩

/-- Header of `tinyFile`. -/
def tinyHdr : FileHdrPage := ⟨3, 3, 2, 4⟩

/-- A freshly opened scan on `tinyFile`. -/
def tinyScan : ScanState := freshScan tinyFile 1 tinyHdr

/-- A heap file whose single data page (the tail) has room for exactly one
more one-byte record. -/
def almostFullFile : DBFile := ⟨[(2, ⟨[], -1, 1⟩)], 3⟩

/-- A freshly opened insert handle on `almostFullFile`. -/
def almostFullScan : ScanState := freshScan almostFullFile 1 ⟨0, 1, 2, 2⟩

/-- `tinyScan` with an INTEGER filter at offset 0 over the given 4 filter
bytes. -/
def intFilterScan (v : List Int) (o : Operator) : ScanState :=
  { tinyScan with filter := some ⟨0, 4, .INTEGER, v, o⟩ }

/-- A record whose 4 bytes encode the `int` 5. -/
def recFive : Record := ⟨[5, 0, 0, 0]⟩

/-- `tinyScan` with a STRING filter of length 2 over the bytes "hi". -/
def strFilterScan : ScanState :=
  { tinyScan with filter := some ⟨0, 2, .STRING, [104, 105], .EQ⟩ }

/-- `tinyScan` with a FLOAT filter over the 4 little-endian bytes of 1.0f. -/
def fltFilterScan : ScanState :=
  { tinyScan with filter := some ⟨0, 4, .FLOAT, [0, 0, 128, 63], .LT⟩ }

/-- The state of `twoPageScan` after one `scanNext` (positioned on the last
record of page 2). -/
def twoPageAfterOne : ScanState := (scanNextF 5 twoPageScan).2.2.1

/-- The state of `onePageScan` after one `scanNext` (positioned on the only
record of the file). -/
def onePageAfterOne : ScanState := (scanNextF 5 onePageScan).2.2.1

/-! ### Derived notions used by the theorems -/

/-- The states from which `scanNext` reports end-of-file immediately, with no
buffer-pool operation and no state change: either `curPageNo < 0` (the
empty-first-page path), or the cursor still pinned on the chain's last page
with no live slot after `curRec` (the in-loop `FILEEOF` return, which leaves
the page pinned). -/
def EOFState (s : ScanState) : Prop :=
  s.curPageNo < 0 ∨
    ∃ pn pg, s.curPage = some pn ∧ pageOf s.file pn = some pg ∧
      nextLiveSlot pg s.curRec.slotNo = none ∧ pg.nextPage = -1

/-- The comparison named by an operator, on two integers (spec reading of the
filter: the stored value compared against the filter value). -/
def cmpInt (o : Operator) (a b : Int) : Bool :=
  match o with
  | .LT => decide (a < b)
  | .LTE => decide (a ≤ b)
  | .EQ => decide (a = b)
  | .GTE => decide (b ≤ a)
  | .GT => decide (b < a)
  | .NE => decide (a ≠ b)

/-- The parameter combinations `startScan` rejects (over the embedded enums;
`sizeof(int) = sizeof(float) = 4`). -/
def badScanParams (off len : Int) (ty : Datatype) : Prop :=
  off < 0 ∨ len < 1 ∨ (ty = .INTEGER ∧ len ≠ 4) ∨ (ty = .FLOAT ∧ len ≠ 4)

instance (off len : Int) (ty : Datatype) : Decidable (badScanParams off len ty) := by
  unfold badScanParams; infer_instance

/-- Every page number in the file is below the allocator's next fresh number
(holds for any file built by `createHeapFile` + `allocPage`). -/
def keysBelowB (f : DBFile) : Bool :=
  f.pages.all (fun e => decide (e.1 < f.nextPageNo))

/-- Iterate `scanNextF` with the given fuel for each call, keeping only the
state. -/
def stepsScan : List Nat → ScanState → ScanState
  | [], s => s
  | F :: rest, s => stepsScan rest (scanNextF F s).2.2.1

/-- Everything `scanNext` leaves untouched: the file, the header page and its
dirty flag, the filter, and the mark snapshot. -/
def Unmoved (t u : ScanState) : Prop :=
  u.file = t.file ∧ u.header = t.header ∧ u.headerPageNo = t.headerPageNo ∧
    u.hdrDirty = t.hdrDirty ∧ u.filter = t.filter ∧
    u.markedPageNo = t.markedPageNo ∧ u.markedRec = t.markedRec

/-- Cursor coherence during a scan over a well-formed chain: the `curPage`
pointer agrees with `curPageNo`, the pinned page is on the chain, and the
dirty flag is false. -/
def Coh (chain : List Int) (u : ScanState) : Prop :=
  u.curPage = some u.curPageNo ∧ u.curPageNo ∈ chain ∧ u.curDirty = false

/-- The state of `tinyScan` after one `scanNext` (positioned on slot 0 of
page 2). -/
def tinyAfterOne : ScanState := (scanNextF 10 tinyScan).2.2.1

/-! ### C7 -/

/-- Claim C7: after any sequence of inserts and deletes, `recCnt` equals
successful inserts minus successful deletes; in particular a `deleteRecord`
whose page-level delete fails leaves `recCnt` and the dirty flags unchanged,
and never advances `curRec`.  The code contradicts this: `deleteRecord`
decrements `recCnt` and sets both dirty flags unconditionally (lines 433-438
run regardless of the status of `Page::deleteRecord`).  Evaluating the
embedded code on a scan whose `curRec` names slot 9 of a one-slot page: the
page-level delete fails with `RECNOTFOUND`, yet `recCnt` drops from 1 to 0 and
both dirty flags are set (`curRec` is indeed not advanced). -/
theorem C7_delete_decrements_on_failure :
    ∃ p, deleteRecord { onePageScan with curRec := ⟨2, 9⟩ } = some p ∧
      p.1 = .RECNOTFOUND ∧
      p.2.header.recCnt = onePageScan.header.recCnt - 1 ∧
      p.2.hdrDirty = true ∧ p.2.curDirty = true ∧
      p.2.curRec = (⟨2, 9⟩ : RID) := by
  refine ⟨(deleteRecord { onePageScan with curRec := ⟨2, 9⟩ }).get (by decide), ?_, ?_, ?_, ?_, ?_, ?_⟩ <;> decide

/-! ### C10 -/

/-- Claim C10: with no page pinned, the no-argument `getRecord` is supposed to
fail with an error status rather than exhibit undefined behaviour.  The code
has no NULL check: line 424 is `return curPage->getRecord(curRec, rec);`, a
null-pointer dereference whenever `curPage == NULL`.  Evaluating the embedded
code: after `endScan` (a legitimate way to reach the unpinned state, reached
here from a fresh scan), `curPage` is NULL and `getRecordCur` yields the
undefined-behaviour marker `none` instead of an error status. -/
theorem C10_null_getrecord :
    ∃ s1, endScan onePageScan = (.OK, s1, [.unpin 2 false]) ∧
      s1.curPage = none ∧ getRecordCur s1 = none := by
  exact ⟨(endScan onePageScan).2.1, by decide, by decide, rfl⟩

/-! ### C2 -/

/-- Claim C2: every successful pin is released by exactly one unpin before the
handle is discarded, on every error path alike.  The code violates this in
`HeapFile::getRecord` (lines 197-216): after unpinning the current page, a
failing `bufMgr->readPage` of the target page returns with `curPage` still
holding the stale pointer to the just-unpinned page (the out-parameter is not
written on failure and the code never clears it), so the destructor unpins
that page a second time.  Evaluating the embedded code on the sequence
construct; `getRecord(⟨99,0⟩)` (page 99 unreadable); destruct: the whole
buffer trace reads page 2 once but unpins it twice. -/
theorem C2_double_unpin_on_failed_repin :
    ∃ res, getRecordByRid ⟨99, 0⟩ onePageScan = some res ∧
      res.1 = .BADPAGE ∧
      res.2.2.1.curPage = some 2 ∧
      ctorTrace onePageScan ++ res.2.2.2 ++ destructHF res.2.2.1 =
        [.read 1, .read 2, .unpin 2 false, .unpin 2 false, .unpin 1 false] ∧
      (ctorTrace onePageScan ++ res.2.2.2 ++ destructHF res.2.2.1).count (.read 2) = 1 ∧
      (ctorTrace onePageScan ++ res.2.2.2 ++ destructHF res.2.2.1).countP
        (fun op => match op with | .unpin 2 _ => true | _ => false) = 2 := by
  refine ⟨(getRecordByRid ⟨99, 0⟩ onePageScan).get (by decide), ?_, ?_, ?_, ?_, ?_, ?_⟩ <;> decide

/-! ### C3 -/

/-- Claim C3 states that whenever the cursor moves from one data page to the
next, the old page is unpinned only AFTER the new page has been pinned.  This
is false for `scanNext`: lines 385-391 unpin the old page and only then call
`readPage` on the next one.  Evaluating the embedded code on a two-page file:
the page-crossing `scanNext` call's buffer trace is `unpin 2` followed by
`read 3`, i.e. the unpin of the old page precedes the pin of the new page. -/
theorem C3_counterexample :
    ∃ s1, (scanNextF 5 twoPageScan).2.2.1 = s1 ∧
      (scanNextF 5 s1).1 = .OK ∧
      (scanNextF 5 s1).2.1 = (⟨3, 0⟩ : RID) ∧
      (scanNextF 5 s1).2.2.2 = [.unpin 2 false, .read 3] := by
  refine ⟨(scanNextF 5 twoPageScan).2.2.1, ?_, ?_, ?_, ?_⟩ <;> decide

/-! ### Association-list facts about `pageOf`/`setPage` -/

theorem withTrace_fst (tr : List BufOp) (r : Status × RID × ScanState × List BufOp) :
    (withTrace tr r).1 = r.1 := rfl

theorem withTrace_state (tr : List BufOp) (r : Status × RID × ScanState × List BufOp) :
    (withTrace tr r).2.2.1 = r.2.2.1 := rfl

theorem setPage_map_fst (f : DBFile) (n : Int) (pg : Page) :
    (setPage f n pg).pages.map Prod.fst = f.pages.map Prod.fst := by
  rcases f with ⟨l, k⟩
  show (l.map _).map Prod.fst = _
  induction l with
  | nil => rfl
  | cons e t ih =>
    simp only [List.map_cons, ih]
    by_cases h : e.1 = n
    · simp [h]
    · simp [h]

theorem setPage_nextPageNo (f : DBFile) (n : Int) (pg : Page) :
    (setPage f n pg).nextPageNo = f.nextPageNo := rfl

theorem allocPage_fst (f : DBFile) : (allocPage f).1 = f.nextPageNo := rfl

theorem setPage_length (f : DBFile) (n : Int) (pg : Page) :
    (setPage f n pg).pages.length = f.pages.length := by
  show (f.pages.map _).length = _
  simp

theorem pageOf_some_of_mem_fst (f : DBFile) (m : Int)
    (h : m ∈ f.pages.map Prod.fst) : ∃ pg, pageOf f m = some pg := by
  rcases f with ⟨l, k⟩
  unfold pageOf
  simp only at h ⊢
  induction l with
  | nil => simp at h
  | cons e t ih =>
    by_cases he : e.1 = m
    · exact ⟨e.2, by simp [List.find?, he]⟩
    · have hm : m ∈ t.map Prod.fst := by
        rcases List.mem_map.mp h with ⟨x, hx, hfst⟩
        rcases List.mem_cons.mp hx with h1 | h2
        · exact absurd (h1 ▸ hfst) he
        · exact List.mem_map.mpr ⟨x, h2, hfst⟩
      rcases ih hm with ⟨pg, hpg⟩
      exact ⟨pg, by simpa [List.find?, show (e.1 == m) = false by simp [he]] using hpg⟩

theorem mem_fst_of_pageOf_some (f : DBFile) (m : Int) (pg : Page)
    (h : pageOf f m = some pg) : m ∈ f.pages.map Prod.fst := by
  rcases f with ⟨l, k⟩
  unfold pageOf at h
  simp only at h ⊢
  induction l with
  | nil => simp [List.find?] at h
  | cons e t ih =>
    by_cases he : e.1 = m
    · simp [he]
    · simp only [List.find?, show (e.1 == m) = false by simp [he]] at h
      simpa using Or.inr (ih h)

theorem pageOf_setPage_self (f : DBFile) (n : Int) (pg0 pg : Page)
    (h : pageOf f n = some pg0) : pageOf (setPage f n pg) n = some pg := by
  rcases f with ⟨l, k⟩
  simp only [pageOf, setPage] at h ⊢
  induction l with
  | nil => simp at h
  | cons e t ih =>
    by_cases he : e.1 = n
    · rw [List.map_cons, if_pos (by simp [he]),
        List.find?_cons_of_pos _ (by simp)]
      rfl
    · rw [List.find?_cons_of_neg _ (by simp [he])] at h
      rw [List.map_cons, if_neg (by simp [he]),
        List.find?_cons_of_neg _ (by simp [he])]
      exact ih h

theorem pageOf_setPage_ne (f : DBFile) (n m : Int) (pg : Page) (h : m ≠ n) :
    pageOf (setPage f n pg) m = pageOf f m := by
  rcases f with ⟨l, k⟩
  simp only [pageOf, setPage]
  induction l with
  | nil => rfl
  | cons e t ih =>
    by_cases he : e.1 = n
    · rw [List.map_cons, if_pos (by simp [he]),
        List.find?_cons_of_neg _ (by simp [Ne.symm h]),
        List.find?_cons_of_neg _ (by rw [he]; simp [Ne.symm h])]
      exact ih
    · rw [List.map_cons, if_neg (by simp [he])]
      by_cases hem : e.1 = m
      · rw [List.find?_cons_of_pos _ (by simp [hem]),
          List.find?_cons_of_pos _ (by simp [hem])]
      · rw [List.find?_cons_of_neg _ (by simp [hem]),
          List.find?_cons_of_neg _ (by simp [hem])]
        exact ih

theorem pageOf_append_left (l : List (Int × Page)) (k : Int) (f : DBFile) (m : Int)
    (pg : Page) (h : pageOf f m = some pg) :
    pageOf ⟨f.pages ++ l, k⟩ m = some pg := by
  rcases f with ⟨t0, k0⟩
  unfold pageOf at h ⊢
  simp only at h ⊢
  induction t0 with
  | nil => simp [List.find?] at h
  | cons e t ih =>
    simp only [List.cons_append, List.find?]
    cases hem : (e.1 == m) with
    | true => simpa [List.find?, hem] using h
    | false => exact ih (by simpa [List.find?, hem] using h)

theorem pageOf_append_fresh (f : DBFile) (k m : Int) (pg : Page)
    (h : m ∉ f.pages.map Prod.fst) :
    pageOf ⟨f.pages ++ [(m, pg)], k⟩ m = some pg := by
  rcases f with ⟨l, k0⟩
  unfold pageOf
  simp only at h ⊢
  induction l with
  | nil => simp [List.find?]
  | cons e t ih =>
    have he : (e.1 == m) = false := by
      simp only [List.map_cons, List.mem_cons] at h
      simp only [beq_eq_false_iff_ne, ne_eq]
      exact fun hh => h (Or.inl hh.symm)
    simp only [List.cons_append, List.find?, he]
    exact ih (fun hm => h (by simp only [List.map_cons, List.mem_cons]; exact Or.inr hm))

/-! ### C4: the EOF state is terminal -/

theorem getRec_error_eq (pg : Page) (r : RID) (st : Status)
    (h : pg.getRec r = .error st) : st = .RECNOTFOUND := by
  unfold Page.getRec at h
  split at h
  · split at h
    · cases h
    · injection h with h1; exact h1.symm
  · injection h with h1; exact h1.symm

theorem scanLoop_eof : ∀ (F : Nat) (s : ScanState),
    (scanLoop F s).1 = .FILEEOF → EOFState (scanLoop F s).2.2.1 := by
  intro F
  induction F with
  | zero => intro s h; simp [scanLoop] at h
  | succ F ih =>
    intro s h
    rcases hcp : s.curPage with _ | pn
    · simp [scanLoop, hcp] at h
    · rcases hpg : pageOf s.file pn with _ | pg
      · simp [scanLoop, hcp, hpg] at h
      · rcases hnl : nextLiveSlot pg s.curRec.slotNo with _ | i
        · by_cases hnp : pg.nextPage = -1
          · have hs : scanLoop (F + 1) s = (.FILEEOF, NULLRID, s, []) := by
              simp [scanLoop, hcp, hpg, hnl, hnp]
            rw [hs]
            exact Or.inr ⟨pn, pg, hcp, hpg, hnl, hnp⟩
          · rcases hp2 : pageOf s.file pg.nextPage with _ | pg2
            · simp [scanLoop, hcp, hpg, hnl, hnp, hp2] at h
            · rcases hfs : pg2.firstSlot with _ | j
              · have hs : scanLoop (F + 1) s =
                    withTrace [.unpin s.curPageNo s.curDirty, .read pg.nextPage]
                      (scanLoop F (advance s pg.nextPage)) := by
                  simp [scanLoop, hcp, hpg, hnl, hnp, hp2, hfs]
                rw [hs] at h ⊢
                rw [withTrace_fst] at h
                rw [withTrace_state]
                exact ih _ h
              · rcases hgr : pg2.getRec ⟨pg.nextPage, (j : Int)⟩ with st2 | rec
                · have := getRec_error_eq _ _ _ hgr
                  simp [scanLoop, hcp, hpg, hnl, hnp, hp2, hfs, hgr, this] at h
                · have hs : scanLoop (F + 1) s =
                      (if matchRec
                          { advance s pg.nextPage with
                            curRec := ⟨pg.nextPage, (j : Int)⟩ } rec = true
                        then ((.OK, ⟨pg.nextPage, (j : Int)⟩,
                          { advance s pg.nextPage with
                            curRec := ⟨pg.nextPage, (j : Int)⟩ },
                          [.unpin s.curPageNo s.curDirty, .read pg.nextPage]) :
                            Status × RID × ScanState × List BufOp)
                        else withTrace [.unpin s.curPageNo s.curDirty, .read pg.nextPage]
                          (scanLoop F
                            { advance s pg.nextPage with
                              curRec := ⟨pg.nextPage, (j : Int)⟩ })) := by
                    simp [scanLoop, hcp, hpg, hnl, hnp, hp2, hfs, hgr]
                  rw [hs] at h ⊢
                  by_cases hm : matchRec
                      { advance s pg.nextPage with
                        curRec := ⟨pg.nextPage, (j : Int)⟩ } rec = true
                  · rw [if_pos hm] at h; simp at h
                  · rw [if_neg hm] at h ⊢
                    rw [withTrace_fst] at h
                    rw [withTrace_state]
                    exact ih _ h
        · rcases hgr : pg.getRec ⟨pn, (i : Int)⟩ with st2 | rec
          · have := getRec_error_eq _ _ _ hgr
            simp [scanLoop, hcp, hpg, hnl, hgr, this] at h
          · have hs : scanLoop (F + 1) s =
                (if matchRec { s with curRec := ⟨pn, (i : Int)⟩ } rec = true
                  then ((.OK, ⟨pn, (i : Int)⟩, { s with curRec := ⟨pn, (i : Int)⟩ }, []) :
                    Status × RID × ScanState × List BufOp)
                  else scanLoop F { s with curRec := ⟨pn, (i : Int)⟩ }) := by
              simp [scanLoop, hcp, hpg, hnl, hgr]
            rw [hs] at h ⊢
            by_cases hm : matchRec { s with curRec := ⟨pn, (i : Int)⟩ } rec = true
            · rw [if_pos hm] at h; simp at h
            · rw [if_neg hm] at h ⊢
              exact ih _ h

theorem scanNextF_eof (F : Nat) (s : ScanState)
    (h : (scanNextF F s).1 = .FILEEOF) : EOFState (scanNextF F s).2.2.1 := by
  by_cases h0 : s.curPageNo < 0
  · have hs : scanNextF F s = (.FILEEOF, NULLRID, s, []) := by
      simp [scanNextF, h0]
    rw [hs]
    exact Or.inl h0
  · rcases hcp : s.curPage with _ | pn
    · by_cases h1 : s.header.firstPage = -1
      · have hs : scanNextF F s = (.FILEEOF, NULLRID,
            { s with curPageNo := s.header.firstPage }, []) := by
          simp [scanNextF, h0, hcp, h1]
        rw [hs]
        exact Or.inl (by simp [h1])
      · rcases hpg : pageOf s.file s.header.firstPage with _ | pg
        · simp [scanNextF, h0, hcp, h1, hpg] at h
        · rcases hfs : pg.firstSlot with _ | i
          · have hs : scanNextF F s = (.FILEEOF, NULLRID,
                { advance s s.header.firstPage with curPageNo := -1, curPage := none },
                [.read s.header.firstPage, .unpin s.header.firstPage false]) := by
              simp [scanNextF, h0, hcp, h1, hpg, hfs]
            rw [hs]
            exact Or.inl (by norm_num)
          · rcases hgr : pg.getRec ⟨s.header.firstPage, (i : Int)⟩ with st2 | rec
            · have := getRec_error_eq _ _ _ hgr
              simp [scanNextF, h0, hcp, h1, hpg, hfs, hgr, this] at h
            · have hs : scanNextF F s =
                  (if matchRec
                      { advance s s.header.firstPage with
                        curRec := ⟨s.header.firstPage, (i : Int)⟩ } rec = true
                    then ((.OK, ⟨s.header.firstPage, (i : Int)⟩,
                      { advance s s.header.firstPage with
                        curRec := ⟨s.header.firstPage, (i : Int)⟩ },
                      [.read s.header.firstPage]) :
                        Status × RID × ScanState × List BufOp)
                    else withTrace [.read s.header.firstPage]
                      (scanLoop F
                        { advance s s.header.firstPage with
                          curRec := ⟨s.header.firstPage, (i : Int)⟩ })) := by
                simp [scanNextF, h0, hcp, h1, hpg, hfs, hgr]
              rw [hs] at h ⊢
              by_cases hm : matchRec
                  { advance s s.header.firstPage with
                    curRec := ⟨s.header.firstPage, (i : Int)⟩ } rec = true
              · rw [if_pos hm] at h; simp at h
              · rw [if_neg hm] at h ⊢
                rw [withTrace_fst] at h
                rw [withTrace_state]
                exact scanLoop_eof _ _ h
    · have hs : scanNextF F s = scanLoop F s := by
        simp [scanNextF, h0, hcp]
      rw [hs] at h ⊢
      exact scanLoop_eof _ _ h

theorem eof_terminal (s : ScanState) (h : EOFState s) (F : Nat) (hF : 1 ≤ F) :
    scanNextF F s = (.FILEEOF, NULLRID, s, []) := by
  by_cases h0 : s.curPageNo < 0
  · simp [scanNextF, h0]
  · rcases h with h | ⟨pn, pg, hcp, hpg, hnl, hnp⟩
    · exact absurd h h0
    · obtain ⟨F1, rfl⟩ : ∃ F1, F = F1 + 1 :=
        ⟨F - 1, by omega⟩
      simp [scanNextF, h0, hcp, scanLoop, hpg, hnl, hnp]

/-- Claim C4 states that a `scanNext` failing with `EndOfFile` leaves
`curPageNo == -1`.  That is false for the in-loop end-of-chain return: line
383 returns `FILEEOF` without touching `curPageNo` (and with the last page
still pinned).  Evaluating the embedded code on the one-page file: after the
single record is produced, the next `scanNext` fails with `FILEEOF` while
`curPageNo` is still 2 and page 2 is still pinned. -/
theorem C4_counterexample :
    ∃ s1, scanNextF 5 onePageScan = (.OK, ⟨2, 0⟩, s1, []) ∧
      (scanNextF 5 s1).1 = .FILEEOF ∧
      (scanNextF 5 s1).2.2.1.curPageNo = 2 ∧
      (scanNextF 5 s1).2.2.1.curPage = some 2 := by
  refine ⟨(scanNextF 5 onePageScan).2.2.1, ?_, ?_, ?_, ?_⟩ <;> decide

/-- Claim C4 (amended): whenever `scanNext` fails with `EndOfFile`, the
resulting state is terminal in the claimed sense — every subsequent `scanNext`
fails with `EndOfFile` immediately, changes no state and performs no
buffer-pool operation (empty buffer trace) — but the cursor is not necessarily
at `curPageNo == -1`: on the end-of-chain path the cursor remains on the last
page, which stays pinned (`curPageNo == -1` is reached only via the
empty-first-page / empty-file path of lines 325-346). -/
theorem C4_amended_terminal_eof (F F2 : Nat) (s : ScanState)
    (h : (scanNextF F s).1 = .FILEEOF) (h2 : 1 ≤ F2) :
    scanNextF F2 (scanNextF F s).2.2.1 =
      (.FILEEOF, NULLRID, (scanNextF F s).2.2.1, []) :=
  eof_terminal _ (scanNextF_eof F s h) F2 h2

/-- Witness for `C4_amended_terminal_eof` at a concrete input: the one-page
scan after its record has been produced. -/
theorem C4_amended_terminal_eof_witness :
    scanNextF 5 (scanNextF 5 onePageAfterOne).2.2.1 =
      (.FILEEOF, NULLRID, (scanNextF 5 onePageAfterOne).2.2.1, []) :=
  C4_amended_terminal_eof 5 5 onePageAfterOne (by decide) (by decide)

/-! ### C3 (amended): the actual pin ordering of the two page-advance paths -/

/-- Claim C3 (amended): the two paths order the pin hand-over differently.
`insertRecord`'s overflow pins the new page first (`allocPage`, line 545) and
unpins the old page afterwards (line 570), as the claim says; but `scanNext`'s
page advance unpins the old page first (line 386) and only then pins the next
page (line 391), so during a scan page-crossing there IS a moment with zero
data-page pins.  Stated on the buffer traces: an overflowing `insertRecord`
emits exactly `[alloc new, unpin old]`, and a page-crossing `scanNext` emits a
trace beginning `unpin old, read next`. -/
theorem C3_amended_pin_order :
    (∀ (s : ScanState) (rec : Record) (pn : Int) (pg : Page),
      s.curPage = some pn → pageOf s.file pn = some pg →
      ¬ rec.len > dataPageCap → ¬ rec.len ≤ pg.free →
      ∃ st rid s1,
        insertRecord rec s =
          some (st, rid, s1,
            [.alloc s.file.nextPageNo, .unpin s.curPageNo s.curDirty])) ∧
    (∀ (F : Nat) (s : ScanState) (pn : Int) (pg pg2 : Page),
      ¬ s.curPageNo < 0 → s.curPage = some pn → pageOf s.file pn = some pg →
      nextLiveSlot pg s.curRec.slotNo = none → pg.nextPage ≠ -1 →
      pageOf s.file pg.nextPage = some pg2 →
      ∃ st rid s1 rest,
        scanNextF (F + 1) s =
          (st, rid, s1, .unpin s.curPageNo s.curDirty :: .read pg.nextPage :: rest)) := by
  constructor
  · intro s rec pn pg hcp hpg hlen hfree
    have hins : pg.insertRec rec = (.NOSPACE, 0, pg) := by
      simp [Page.insertRec, hfree]
    have h1 : ∃ pgx, pageOf (allocPage s.file).2 s.file.nextPageNo = some pgx := by
      apply pageOf_some_of_mem_fst
      simp [allocPage]
    obtain ⟨pgx, h1⟩ := h1
    have h2 : pageOf (setPage (allocPage s.file).2 s.file.nextPageNo emptyPage)
        s.file.nextPageNo = some emptyPage :=
      pageOf_setPage_self _ _ _ _ h1
    have h3 : ∃ npg, pageOf
        (setPage (setPage (allocPage s.file).2 s.file.nextPageNo emptyPage) pn
          { pg with nextPage := s.file.nextPageNo }) s.file.nextPageNo = some npg := by
      by_cases hpe : pn = s.file.nextPageNo
      · subst hpe
        exact ⟨_, pageOf_setPage_self _ _ _ _ h2⟩
      · refine ⟨emptyPage, ?_⟩
        rw [pageOf_setPage_ne _ _ _ _ (fun hh => hpe hh.symm)]
        exact h2
    obtain ⟨npg, h3⟩ := h3
    simp only [insertRecord, hcp]
    rw [if_neg hlen]
    simp only [insertCore, hcp, hpg, hins, List.nil_append, allocPage_fst]
    rw [h3]
    rcases hi : npg.insertRec rec with ⟨st1, slot1, npg1⟩
    cases st1 <;> simp only [hi] <;> exact ⟨_, _, _, rfl⟩
  · intro F s pn pg pg2 h0 hcp hpg hnl hnp hp2
    have hentry : scanNextF (F + 1) s = scanLoop (F + 1) s := by
      simp [scanNextF, h0, hcp]
    rw [hentry]
    rcases hfs : pg2.firstSlot with _ | j
    · have hs : scanLoop (F + 1) s =
          withTrace [.unpin s.curPageNo s.curDirty, .read pg.nextPage]
            (scanLoop F (advance s pg.nextPage)) := by
        simp [scanLoop, hcp, hpg, hnl, hnp, hp2, hfs]
      rw [hs]
      refine ⟨(scanLoop F (advance s pg.nextPage)).1,
        (scanLoop F (advance s pg.nextPage)).2.1,
        (scanLoop F (advance s pg.nextPage)).2.2.1,
        (scanLoop F (advance s pg.nextPage)).2.2.2, ?_⟩
      simp [withTrace]
    · rcases hgr : pg2.getRec ⟨pg.nextPage, (j : Int)⟩ with st2 | rec
      · have hs : scanLoop (F + 1) s =
            (st2, NULLRID,
              { advance s pg.nextPage with curRec := ⟨pg.nextPage, (j : Int)⟩ },
              [.unpin s.curPageNo s.curDirty, .read pg.nextPage]) := by
          simp [scanLoop, hcp, hpg, hnl, hnp, hp2, hfs, hgr]
        rw [hs]
        exact ⟨_, _, _, [], rfl⟩
      · have hs : scanLoop (F + 1) s =
            (if matchRec
                { advance s pg.nextPage with curRec := ⟨pg.nextPage, (j : Int)⟩ } rec = true
              then ((.OK, ⟨pg.nextPage, (j : Int)⟩,
                { advance s pg.nextPage with curRec := ⟨pg.nextPage, (j : Int)⟩ },
                [.unpin s.curPageNo s.curDirty, .read pg.nextPage]) :
                  Status × RID × ScanState × List BufOp)
              else withTrace [.unpin s.curPageNo s.curDirty, .read pg.nextPage]
                (scanLoop F
                  { advance s pg.nextPage with curRec := ⟨pg.nextPage, (j : Int)⟩ })) := by
          simp [scanLoop, hcp, hpg, hnl, hnp, hp2, hfs, hgr]
        rw [hs]
        by_cases hm : matchRec
            { advance s pg.nextPage with curRec := ⟨pg.nextPage, (j : Int)⟩ } rec = true
        · rw [if_pos hm]
          exact ⟨_, _, _, [], rfl⟩
        · rw [if_neg hm]
          refine ⟨(scanLoop F
              { advance s pg.nextPage with curRec := ⟨pg.nextPage, (j : Int)⟩ }).1,
            (scanLoop F
              { advance s pg.nextPage with curRec := ⟨pg.nextPage, (j : Int)⟩ }).2.1,
            (scanLoop F
              { advance s pg.nextPage with curRec := ⟨pg.nextPage, (j : Int)⟩ }).2.2.1,
            (scanLoop F
              { advance s pg.nextPage with curRec := ⟨pg.nextPage, (j : Int)⟩ }).2.2.2, ?_⟩
          simp [withTrace]

/-- Witness for `C3_amended_pin_order` at concrete inputs: an overflowing
insert on the almost-full file and the page-crossing `scanNext` on the
two-page file. -/
theorem C3_amended_pin_order_witness :
    (∃ st rid s1, insertRecord ⟨[7, 8]⟩ almostFullScan =
      some (st, rid, s1, [.alloc 3, .unpin 2 false])) ∧
    (∃ st rid s1 rest, scanNextF 5 twoPageAfterOne =
      (st, rid, s1, .unpin 2 false :: .read 3 :: rest)) := by
  constructor
  · exact C3_amended_pin_order.1 almostFullScan ⟨[7, 8]⟩ 2 ⟨[], -1, 1⟩
      rfl (by decide) (by decide) (by decide)
  · exact C3_amended_pin_order.2 4 twoPageAfterOne 2 ⟨[some ⟨[1]⟩], 3, 0⟩
      ⟨[some ⟨[2]⟩], -1, 0⟩ (by decide) (by decide) (by decide) (by decide)
      (by decide) (by decide)

/-! ### C8: startScan parameter validation -/

/-- Claim C8 says an invalid `startScan` leaves the scan unfiltered.  It does
not: on a violation the code returns `BADSCANPARM` without touching the
`filter` member (lines 243-250), so a PREVIOUSLY installed filter stays in
force.  Evaluating the embedded code: a valid filtered `startScan` followed by
one with `offset = -1` fails with `BADSCANPARM`, yet the filter is still set
and a subsequent `matchRec` does not match every record. -/
theorem C8_counterexample :
    ∃ s1 s2,
      startScan 0 4 .INTEGER (some [5, 0, 0, 0]) .EQ onePageScan = (.OK, s1) ∧
      startScan (-1) 4 .INTEGER (some [5, 0, 0, 0]) .EQ s1 = (.BADSCANPARM, s2) ∧
      s2.filter ≠ none ∧
      matchRec s2 ⟨[3, 0, 0, 0]⟩ = false := by
  refine ⟨(startScan 0 4 .INTEGER (some [5, 0, 0, 0]) .EQ onePageScan).2,
    (startScan (-1) 4 .INTEGER (some [5, 0, 0, 0]) .EQ
      (startScan 0 4 .INTEGER (some [5, 0, 0, 0]) .EQ onePageScan).2).2,
    ?_, ?_, ?_, ?_⟩ <;> decide

/-- Claim C8 (amended): `startScan` with a null filter value always succeeds
and disables filtering; with a non-null value it fails with `BADSCANPARM`
exactly when the parameters are invalid (`offset < 0`, `length < 1`, INTEGER
or FLOAT with `length ≠ 4`; the type/op membership tests are vacuous over the
enums), and on a violation it leaves the ENTIRE scan state — in particular any
previously installed filter — unchanged (so a scan that was unfiltered stays
unfiltered, but a filtered one stays filtered); on success it installs the
parameters. -/
theorem C8_amended_start_scan (off len : Int) (ty : Datatype) (fv : List Int)
    (o : Operator) (s : ScanState) :
    startScan off len ty none o s = (.OK, { s with filter := none }) ∧
    (badScanParams off len ty →
      startScan off len ty (some fv) o s = (.BADSCANPARM, s)) ∧
    (¬ badScanParams off len ty →
      startScan off len ty (some fv) o s =
        (.OK, { s with filter := some ⟨off, len, ty, fv, o⟩ })) := by
  refine ⟨rfl, ?_, ?_⟩
  · intro h
    have h2 : off < 0 ∨ len < 1 ∨ (ty = .INTEGER ∧ len ≠ 4) ∨ (ty = .FLOAT ∧ len ≠ 4) := h
    simp only [startScan]
    rw [if_pos h2]
  · intro h
    have h2 : ¬(off < 0 ∨ len < 1 ∨ (ty = .INTEGER ∧ len ≠ 4) ∨ (ty = .FLOAT ∧ len ≠ 4)) := h
    simp only [startScan]
    rw [if_neg h2]

/-- Witness for `C8_amended_start_scan` at concrete inputs, discharging both
implications. -/
theorem C8_amended_start_scan_witness :
    startScan (-1) 4 .INTEGER (some [9]) .EQ onePageScan = (.BADSCANPARM, onePageScan) ∧
    startScan 0 4 .INTEGER (some [9]) .EQ onePageScan =
      (.OK, { onePageScan with filter := some ⟨0, 4, .INTEGER, [9], .EQ⟩ }) :=
  ⟨(C8_amended_start_scan (-1) 4 .INTEGER [9] .EQ onePageScan).2.1 (Or.inl (by norm_num)),
   (C8_amended_start_scan 0 4 .INTEGER [9] .EQ onePageScan).2.2 (by decide)⟩

/-! ### C9: predicate evaluation -/

theorem applyOp_sgn (o : Operator) (a b : Int) :
    applyOp o (sgn (a - b)) = cmpInt o a b := by
  rcases lt_trichotomy a b with h | h | h
  · have hs : sgn (a - b) = -1 := by unfold sgn; rw [if_pos (by omega)]
    rw [hs]
    cases o <;> simp only [applyOp, cmpInt] <;> rw [decide_eq_decide] <;>
      constructor <;> intro h2 <;> first | rfl | omega | exact absurd rfl h2 | simp_all
  · have hs : sgn (a - b) = 0 := by
      unfold sgn; rw [if_neg (by omega), if_pos (by omega)]
    rw [hs]
    cases o <;> simp only [applyOp, cmpInt] <;> rw [decide_eq_decide] <;>
      constructor <;> intro h2 <;> first | rfl | omega | exact absurd rfl h2 | simp_all
  · have hs : sgn (a - b) = 1 := by
      unfold sgn; rw [if_neg (by omega), if_neg (by omega)]
    rw [hs]
    cases o <;> simp only [applyOp, cmpInt] <;> rw [decide_eq_decide] <;>
      constructor <;> intro h2 <;> first | rfl | omega | exact absurd rfl h2 | simp_all

/-- Claim C9: `matchRec` matches unconditionally with no filter; fails closed
when `offset + length` exceeds the record length; otherwise applies the
comparator to the sign of the stored value minus the filter value — for
INTEGER this is exactly the integer comparison of the stored `int` against the
filter `int` (`applyOp_sgn`), for STRING the sign of the length-bounded
`strncmp`, for FLOAT the sign of the exact difference of the decoded values.
The claim's concrete instances (stored 5 against filter 5: EQ matches, LT and
GT do not; against filter 3: GT matches) evaluate as stated. -/
theorem C9_match_rec (s : ScanState) (rec : Record) (fs : FilterSpec) :
    (s.filter = none → matchRec s rec = true) ∧
    (s.filter = some fs → fs.offset + fs.length > rec.len → matchRec s rec = false) ∧
    (s.filter = some fs → ¬ fs.offset + fs.length > rec.len → fs.type = .INTEGER →
      matchRec s rec = cmpInt fs.op (readIntLE rec.data fs.offset) (readIntLE fs.filter 0)) ∧
    (s.filter = some fs → ¬ fs.offset + fs.length > rec.len → fs.type = .STRING →
      matchRec s rec =
        applyOp fs.op (strncmpM (rec.data.drop fs.offset.toNat) fs.filter fs.length.toNat)) ∧
    (s.filter = some fs → ¬ fs.offset + fs.length > rec.len → fs.type = .FLOAT →
      matchRec s rec =
        applyOp fs.op (sgnQ (floatDecodeQ rec.data fs.offset - floatDecodeQ fs.filter 0))) ∧
    matchRec (intFilterScan [5, 0, 0, 0] .EQ) recFive = true ∧
    matchRec (intFilterScan [5, 0, 0, 0] .LT) recFive = false ∧
    matchRec (intFilterScan [5, 0, 0, 0] .GT) recFive = false ∧
    matchRec (intFilterScan [3, 0, 0, 0] .GT) recFive = true := by
  refine ⟨?_, ?_, ?_, ?_, ?_, by decide, by decide, by decide, by decide⟩
  · intro h; simp [matchRec, h]
  · intro h hb; simp [matchRec, h, hb]
  · intro h hb ht; simp [matchRec, h, hb, ht, applyOp_sgn]
  · intro h hb ht; simp [matchRec, h, hb, ht]
  · intro h hb ht; simp [matchRec, h, hb, ht]

/-- Witness for `C9_match_rec`, applying each conditional part at a concrete
input (no filter; out-of-bounds; INTEGER; STRING; FLOAT). -/
theorem C9_match_rec_witness :
    matchRec tinyScan recFive = true ∧
    matchRec (intFilterScan [9, 9, 9, 9] .EQ) ⟨[1]⟩ = false ∧
    matchRec (intFilterScan [5, 0, 0, 0] .NE) recFive =
      cmpInt .NE (readIntLE recFive.data 0) (readIntLE [5, 0, 0, 0] 0) ∧
    matchRec strFilterScan ⟨[104, 105, 0]⟩ =
      applyOp .EQ (strncmpM ([104, 105, 0].drop 0) [104, 105] 2) ∧
    matchRec fltFilterScan ⟨[0, 0, 128, 63]⟩ =
      applyOp .LT (sgnQ (floatDecodeQ [0, 0, 128, 63] 0 - floatDecodeQ [0, 0, 128, 63] 0)) := by
  refine ⟨?_, ?_, ?_, ?_, ?_⟩
  · exact (C9_match_rec tinyScan recFive ⟨0, 4, .INTEGER, [5, 0, 0, 0], .NE⟩).1 rfl
  · exact (C9_match_rec _ ⟨[1]⟩ ⟨0, 4, .INTEGER, [9, 9, 9, 9], .EQ⟩).2.1 rfl (by decide)
  · exact (C9_match_rec _ recFive ⟨0, 4, .INTEGER, [5, 0, 0, 0], .NE⟩).2.2.1 rfl
      (by decide) rfl
  · exact (C9_match_rec _ ⟨[104, 105, 0]⟩ ⟨0, 2, .STRING, [104, 105], .EQ⟩).2.2.2.1 rfl
      (by decide) rfl
  · exact (C9_match_rec _ ⟨[0, 0, 128, 63]⟩ ⟨0, 4, .FLOAT, [0, 0, 128, 63], .LT⟩).2.2.2.2.1
      rfl (by decide) rfl

/-! ### C6: insert overflow -/

theorem allocPage_snd (f : DBFile) :
    (allocPage f).2 = ⟨f.pages ++ [(f.nextPageNo, emptyPage)], f.nextPageNo + 1⟩ := rfl

theorem keysBelowB_iff (f : DBFile) :
    keysBelowB f = true ↔ ∀ e ∈ f.pages, e.1 < f.nextPageNo := by
  simp [keysBelowB, List.all_eq_true]

theorem keysBelowB_setPage (f : DBFile) (n : Int) (pg : Page)
    (h : keysBelowB f = true) : keysBelowB (setPage f n pg) = true := by
  rw [keysBelowB_iff] at h ⊢
  intro e he
  have he2 : e ∈ f.pages.map (fun x => if x.1 == n then (n, pg) else x) := he
  rcases List.mem_map.mp he2 with ⟨x, hx, hxe⟩
  have he1 : e.1 = x.1 := by
    subst hxe
    by_cases hxn : x.1 = n
    · simp [hxn]
    · simp [hxn]
  rw [setPage_nextPageNo, he1]
  exact h x hx

theorem keysBelowB_not_mem (f : DBFile) (h : keysBelowB f = true) :
    f.nextPageNo ∉ f.pages.map Prod.fst := by
  rw [keysBelowB_iff] at h
  intro hm
  rcases List.mem_map.mp hm with ⟨x, hx, hxe⟩
  have := h x hx
  omega

theorem insertMany_cons (r : Record) (rest : List Record) (s : ScanState) :
    insertMany (r :: rest) s =
      match insertRecord r s with
      | some (.OK, rid, s1, _) =>
        (insertMany rest s1).map (fun p => (rid :: p.1, p.2))
      | _ => none := rfl

theorem getLast?_cons_ne (a : RID) (l : List RID) (h : l ≠ []) :
    (a :: l).getLast? = l.getLast? := by
  cases l with
  | nil => exact absurd rfl h
  | cons b t => simp [List.getLast?_cons_cons]

/-- `insertRecord` when the record fits on the current page (the success arm
of lines 537-542). -/
theorem insertRecord_fits (s : ScanState) (rec : Record) (pn : Int) (pg : Page)
    (hcp : s.curPage = some pn) (hpg : pageOf s.file pn = some pg)
    (hlen : ¬ rec.len > dataPageCap) (hfit : rec.len ≤ pg.free) :
    insertRecord rec s = some (.OK, ⟨pn, (pg.slots.length : Int)⟩,
      { s with
        file := setPage s.file pn
          { pg with slots := pg.slots ++ [some rec], free := pg.free - rec.len },
        header := { s.header with recCnt := s.header.recCnt + 1 },
        hdrDirty := true, curDirty := true }, []) := by
  have hins : pg.insertRec rec = (.OK, pg.slots.length,
      { pg with slots := pg.slots ++ [some rec], free := pg.free - rec.len }) := by
    simp [Page.insertRec, hfit]
  simp only [insertRecord, hcp]
  rw [if_neg hlen]
  simp only [insertCore, hcp, hpg, hins]

/-- `insertRecord` when the current page is full (the `NOSPACE` overflow arm,
lines 543-588): allocate, initialise and link the new page, update the
header's `lastPage` and `pageCnt`, unpin the old page, adopt the new page and
retry (the retry always succeeds because a fresh page has `dataPageCap` free
bytes and the record passed the length guard). -/
theorem insertRecord_overflow (s : ScanState) (rec : Record) (pn : Int) (pg : Page)
    (hcp : s.curPage = some pn) (hpno : s.curPageNo = pn)
    (hpg : pageOf s.file pn = some pg)
    (hlen : ¬ rec.len > dataPageCap) (hfull : ¬ rec.len ≤ pg.free)
    (hkeys : keysBelowB s.file = true) :
    insertRecord rec s = some (.OK, ⟨s.file.nextPageNo, 0⟩,
      { s with
        file := setPage (setPage (setPage (allocPage s.file).2 s.file.nextPageNo emptyPage)
            pn { pg with nextPage := s.file.nextPageNo }) s.file.nextPageNo
          { emptyPage with slots := [some rec], free := emptyPage.free - rec.len },
        header := { s.header with
          recCnt := s.header.recCnt + 1,
          pageCnt := s.header.pageCnt + 1, lastPage := s.file.nextPageNo },
        hdrDirty := true, curPage := some s.file.nextPageNo,
        curPageNo := s.file.nextPageNo, curDirty := true },
      [.alloc s.file.nextPageNo, .unpin pn s.curDirty]) := by
  have hins : pg.insertRec rec = (.NOSPACE, 0, pg) := by
    simp [Page.insertRec, hfull]
  have hfresh : s.file.nextPageNo ∉ s.file.pages.map Prod.fst :=
    keysBelowB_not_mem _ hkeys
  have hne : pn ≠ s.file.nextPageNo := by
    have hmem := mem_fst_of_pageOf_some _ _ _ hpg
    rw [keysBelowB_iff] at hkeys
    rcases List.mem_map.mp hmem with ⟨x, hx, hxe⟩
    have := hkeys x hx
    omega
  have h1 : pageOf (allocPage s.file).2 s.file.nextPageNo = some emptyPage := by
    rw [allocPage_snd]
    exact pageOf_append_fresh s.file _ _ _ hfresh
  have h2 := pageOf_setPage_self _ s.file.nextPageNo _ emptyPage h1
  have h3 : pageOf (setPage (setPage (allocPage s.file).2 s.file.nextPageNo emptyPage) pn
      { pg with nextPage := s.file.nextPageNo }) s.file.nextPageNo = some emptyPage := by
    rw [pageOf_setPage_ne _ _ _ _ (fun hh => hne hh.symm)]
    exact h2
  have hcap : rec.len ≤ dataPageCap := not_lt.mp hlen
  have hretry : emptyPage.insertRec rec = (.OK, 0,
      { emptyPage with slots := [some rec], free := emptyPage.free - rec.len }) := by
    simp [Page.insertRec, emptyPage, hcap]
  simp only [insertRecord, hcp]
  rw [if_neg hlen]
  simp only [insertCore, hcp, hpg, hins, allocPage_fst, List.nil_append]
  rw [h3]
  simp only [hretry]
  simp [hpno]

/-- Claim C6: on a tail page that accepts at most `k` more records of a fixed
size (`k·len ≤ free < (k+1)·len`), inserting `k + 1` such records succeeds,
allocates exactly one new page (`pageCnt` and the number of pages grow by 1),
links the old tail to the new page, makes the new page the header's
`lastPage` with terminator forward link, returns the `(k+1)`-th RID on the new
page, and increments `recCnt` once per insert. -/
theorem C6_insert_overflow :
    ∀ (k : Nat) (s : ScanState) (pg : Page) (pn : Int) (rec : Record),
    s.curPage = some pn → s.curPageNo = pn →
    pageOf s.file pn = some pg →
    s.header.lastPage = pn → pg.nextPage = -1 →
    keysBelowB s.file = true →
    0 < rec.len → rec.len ≤ dataPageCap →
    (k : Int) * rec.len ≤ pg.free → pg.free < ((k : Int) + 1) * rec.len →
    ∃ rids s1,
      insertMany (List.replicate (k + 1) rec) s = some (rids, s1) ∧
      rids.length = k + 1 ∧
      rids.getLast? = some ⟨s.file.nextPageNo, 0⟩ ∧
      s1.header.pageCnt = s.header.pageCnt + 1 ∧
      s1.header.recCnt = s.header.recCnt + ((k : Int) + 1) ∧
      s1.header.lastPage = s.file.nextPageNo ∧
      (∃ pgOld, pageOf s1.file pn = some pgOld ∧
        pgOld.nextPage = s.file.nextPageNo) ∧
      (∃ pgNew, pageOf s1.file s.file.nextPageNo = some pgNew ∧
        pgNew.nextPage = -1) ∧
      s1.file.pages.length = s.file.pages.length + 1 ∧
      s1.file.nextPageNo = s.file.nextPageNo + 1 := by
  intro k
  induction k with
  | zero =>
    intro s pg pn rec hcp hpno hpg hlast hnext hkeys hpos hcap hk1 hk2
    have hfull : ¬ rec.len ≤ pg.free := by
      push_cast at hk2
      omega
    have hstep := insertRecord_overflow s rec pn pg hcp hpno hpg
      (not_lt.mpr hcap) hfull hkeys
    refine ⟨[⟨s.file.nextPageNo, 0⟩],
      { s with
        file := setPage (setPage (setPage (allocPage s.file).2 s.file.nextPageNo emptyPage)
            pn { pg with nextPage := s.file.nextPageNo }) s.file.nextPageNo
          { emptyPage with slots := [some rec], free := emptyPage.free - rec.len },
        header := { s.header with
          recCnt := s.header.recCnt + 1,
          pageCnt := s.header.pageCnt + 1, lastPage := s.file.nextPageNo },
        hdrDirty := true, curPage := some s.file.nextPageNo,
        curPageNo := s.file.nextPageNo, curDirty := true },
      ?_, ?_, ?_, ?_, ?_, ?_, ?_, ?_, ?_, ?_⟩
    · simp only [List.replicate, insertMany, hstep]
      rfl
    · rfl
    · rfl
    · rfl
    · push_cast; ring
    · rfl
    · refine ⟨{ pg with nextPage := s.file.nextPageNo }, ?_, rfl⟩
      have hne : pn ≠ s.file.nextPageNo := by
        have hmem := mem_fst_of_pageOf_some _ _ _ hpg
        rw [keysBelowB_iff] at hkeys
        rcases List.mem_map.mp hmem with ⟨x, hx, hxe⟩
        have := hkeys x hx
        omega
      rw [pageOf_setPage_ne _ _ _ _ hne]
      apply pageOf_setPage_self
      rw [pageOf_setPage_ne _ _ _ _ hne, allocPage_snd]
      exact pageOf_append_left _ _ _ _ _ hpg
    · refine ⟨{ emptyPage with slots := [some rec], free := emptyPage.free - rec.len },
        ?_, rfl⟩
      apply pageOf_setPage_self
      rw [pageOf_setPage_ne _ _ _ _ (fun hh => ?_), allocPage_snd]
      · apply pageOf_setPage_self
        exact pageOf_append_fresh s.file _ _ _ (keysBelowB_not_mem _ hkeys)
      · have hmem := mem_fst_of_pageOf_some _ _ _ hpg
        rw [keysBelowB_iff] at hkeys
        rcases List.mem_map.mp hmem with ⟨x, hx, hxe⟩
        have := hkeys x hx
        omega
    · simp [setPage_length, allocPage_snd]
    · simp [setPage_nextPageNo, allocPage_snd]
  | succ k ih =>
    intro s pg pn rec hcp hpno hpg hlast hnext hkeys hpos hcap hk1 hk2
    have hk0 : (0 : Int) ≤ (k : Int) * rec.len :=
      mul_nonneg (Int.natCast_nonneg k) (le_of_lt hpos)
    have hexp1 : ((k : Int) + 1) * rec.len = (k : Int) * rec.len + rec.len := by ring
    have hexp2 : ((k : Int) + 1 + 1) * rec.len =
        ((k : Int) + 1) * rec.len + rec.len := by ring
    have hfit : rec.len ≤ pg.free := by
      push_cast at hk1
      rw [hexp1] at hk1
      omega
    have hstep := insertRecord_fits s rec pn pg hcp hpg (not_lt.mpr hcap) hfit
    set pg1 : Page :=
      { pg with slots := pg.slots ++ [some rec], free := pg.free - rec.len } with hpg1
    set s1 : ScanState :=
      { s with
        file := setPage s.file pn pg1,
        header := { s.header with recCnt := s.header.recCnt + 1 },
        hdrDirty := true, curDirty := true } with hs1
    have hcp1 : s1.curPage = some pn := hcp
    have hpno1 : s1.curPageNo = pn := hpno
    have hpgA : pageOf s1.file pn = some pg1 := pageOf_setPage_self _ _ _ _ hpg
    have hlast1 : s1.header.lastPage = pn := hlast
    have hnext1 : pg1.nextPage = -1 := hnext
    have hkeys1 : keysBelowB s1.file = true := keysBelowB_setPage _ _ _ hkeys
    have hb1 : (k : Int) * rec.len ≤ pg1.free := by
      show (k : Int) * rec.len ≤ pg.free - rec.len
      push_cast at hk1
      rw [hexp1] at hk1
      omega
    have hb2 : pg1.free < ((k : Int) + 1) * rec.len := by
      show pg.free - rec.len < ((k : Int) + 1) * rec.len
      push_cast at hk2
      rw [hexp2] at hk2
      omega
    obtain ⟨rids1, s2, hmany, hlen1, hlastr, hpc, hrc, hlp, hOld, hNew, hplen, hnp⟩ :=
      ih s1 pg1 pn rec hcp1 hpno1 hpgA hlast1 hnext1 hkeys1 hpos hcap hb1 hb2
    have hfn : s1.file.nextPageNo = s.file.nextPageNo := setPage_nextPageNo _ _ _
    refine ⟨⟨pn, (pg.slots.length : Int)⟩ :: rids1, s2, ?_, ?_, ?_, ?_, ?_, ?_, ?_, ?_, ?_, ?_⟩
    · have hrep : List.replicate (k + 1 + 1) rec = rec :: List.replicate (k + 1) rec := rfl
      rw [hrep, insertMany_cons, hstep]
      simp only [hmany]
      rfl
    · simp [hlen1]
    · rw [getLast?_cons_ne _ _ (by intro hh; rw [hh] at hlen1; simp at hlen1)]
      rw [hlastr, hfn]
    · rw [hpc]
    · rw [hrc]
      show s.header.recCnt + 1 + ((k : Int) + 1) = _
      push_cast
      ring
    · rw [hlp, hfn]
    · rw [← hfn]; exact hOld
    · rw [← hfn]; exact hNew
    · rw [hplen]
      rw [setPage_length]
    · rw [hnp, hfn]

/-- Witness for `C6_insert_overflow` at a concrete input: the almost-full file
(tail page with one free byte), two one-byte records (`k = 1`). -/
theorem C6_insert_overflow_witness :
    ∃ rids s1,
      insertMany (List.replicate 2 ⟨[7]⟩) almostFullScan = some (rids, s1) ∧
      rids.length = 2 ∧
      rids.getLast? = some ⟨3, 0⟩ ∧
      s1.header.pageCnt = almostFullScan.header.pageCnt + 1 ∧
      s1.header.recCnt = almostFullScan.header.recCnt + ((1 : Int) + 1) ∧
      s1.header.lastPage = 3 ∧
      (∃ pgOld, pageOf s1.file 2 = some pgOld ∧ pgOld.nextPage = 3) ∧
      (∃ pgNew, pageOf s1.file 3 = some pgNew ∧ pgNew.nextPage = -1) ∧
      s1.file.pages.length = almostFullScan.file.pages.length + 1 ∧
      s1.file.nextPageNo = 3 + 1 :=
  C6_insert_overflow 1 almostFullScan ⟨[], -1, 1⟩ 2 ⟨[7]⟩ rfl rfl (by decide)
    rfl rfl (by decide) (by decide) (by decide) (by decide) (by decide)

/-! ### C5: mark/reset -/

/-- Every page on a well-formed chain is readable, non-negative, and its
forward link is the terminator or stays on the chain. -/
theorem isChainB_mem (f : DBFile) : ∀ (chain : List Int) (start : Int),
    isChainB f start chain = true → ∀ p ∈ chain,
    0 ≤ p ∧ ∃ pg, pageOf f p = some pg ∧
      (pg.nextPage = -1 ∨ pg.nextPage ∈ chain) := by
  intro chain
  induction chain with
  | nil =>
    intro start h p hp
    simp at hp
  | cons q rest ih =>
    intro start h p hp
    simp only [isChainB, Bool.and_eq_true, beq_iff_eq, decide_eq_true_eq] at h
    obtain ⟨⟨hq, h0⟩, hrest⟩ := h
    rcases hpg : pageOf f start with _ | pg
    · rw [hpg] at hrest
      exact absurd hrest (by simp)
    · rw [hpg] at hrest
      rcases List.mem_cons.mp hp with rfl | hmem
      · subst hq
        refine ⟨h0, pg, hpg, ?_⟩
        cases hre : rest with
        | nil =>
          subst hre
          left
          simpa [isChainB] using hrest
        | cons r t =>
          subst hre
          right
          have hr : r = pg.nextPage := by
            simp only [isChainB, Bool.and_eq_true, beq_iff_eq, decide_eq_true_eq] at hrest
            exact hrest.1.1
          rw [← hr]
          exact List.mem_cons.mpr (Or.inr (List.mem_cons.mpr (Or.inl rfl)))
      · obtain ⟨h0p, pg2, hpg2, hlink⟩ := ih pg.nextPage hrest p hmem
        exact ⟨h0p, pg2, hpg2,
          hlink.imp id (fun hm => List.mem_cons.mpr (Or.inr hm))⟩

/-- While looping inside `scanNext` over a well-formed chain, the file,
header, filter and mark fields never change and the cursor stays coherent. -/
theorem scanLoop_inv (chain : List Int) (start : Int) :
    ∀ (F : Nat) (t : ScanState), isChainB t.file start chain = true →
    Coh chain t →
    Unmoved t (scanLoop F t).2.2.1 ∧ Coh chain (scanLoop F t).2.2.1 := by
  intro F
  induction F with
  | zero =>
    intro t hch hc
    exact ⟨⟨rfl, rfl, rfl, rfl, rfl, rfl, rfl⟩, hc⟩
  | succ F ih =>
    intro t hch hc
    obtain ⟨hcp, hmem, hcd⟩ := hc
    obtain ⟨h0, pg, hpg, hlink⟩ := isChainB_mem t.file chain start hch t.curPageNo hmem
    rcases hnl : nextLiveSlot pg t.curRec.slotNo with _ | i
    · by_cases hnp : pg.nextPage = -1
      · have hs : scanLoop (F + 1) t = (.FILEEOF, NULLRID, t, []) := by
          simp [scanLoop, hcp, hpg, hnl, hnp]
        rw [hs]
        exact ⟨⟨rfl, rfl, rfl, rfl, rfl, rfl, rfl⟩, hcp, hmem, hcd⟩
      · have hmem2 : pg.nextPage ∈ chain := hlink.resolve_left hnp
        obtain ⟨h02, pg2, hpg2, _⟩ := isChainB_mem t.file chain start hch _ hmem2
        have hcoh2 : Coh chain (advance t pg.nextPage) := ⟨rfl, hmem2, rfl⟩
        have hch2 : ∀ (u : ScanState), u.file = t.file →
            isChainB u.file start chain = true := fun u hu => by rw [hu]; exact hch
        rcases hfs : pg2.firstSlot with _ | j
        · have hs : scanLoop (F + 1) t =
              withTrace [.unpin t.curPageNo t.curDirty, .read pg.nextPage]
                (scanLoop F (advance t pg.nextPage)) := by
            simp [scanLoop, hcp, hpg, hnl, hnp, hpg2, hfs]
          rw [hs, withTrace_state]
          obtain ⟨hU, hC⟩ := ih (advance t pg.nextPage) (hch2 _ rfl) hcoh2
          exact ⟨hU, hC⟩
        · rcases hgr : pg2.getRec ⟨pg.nextPage, (j : Int)⟩ with st2 | rec
          · have hs : scanLoop (F + 1) t =
                (st2, NULLRID,
                  { advance t pg.nextPage with curRec := ⟨pg.nextPage, (j : Int)⟩ },
                  [.unpin t.curPageNo t.curDirty, .read pg.nextPage]) := by
              simp [scanLoop, hcp, hpg, hnl, hnp, hpg2, hfs, hgr]
            rw [hs]
            exact ⟨⟨rfl, rfl, rfl, rfl, rfl, rfl, rfl⟩, rfl, hmem2, rfl⟩
          · have hs : scanLoop (F + 1) t =
                (if matchRec
                    { advance t pg.nextPage with curRec := ⟨pg.nextPage, (j : Int)⟩ } rec = true
                  then ((.OK, ⟨pg.nextPage, (j : Int)⟩,
                    { advance t pg.nextPage with curRec := ⟨pg.nextPage, (j : Int)⟩ },
                    [.unpin t.curPageNo t.curDirty, .read pg.nextPage]) :
                      Status × RID × ScanState × List BufOp)
                  else withTrace [.unpin t.curPageNo t.curDirty, .read pg.nextPage]
                    (scanLoop F
                      { advance t pg.nextPage with curRec := ⟨pg.nextPage, (j : Int)⟩ })) := by
              simp [scanLoop, hcp, hpg, hnl, hnp, hpg2, hfs, hgr]
            rw [hs]
            by_cases hm : matchRec
                { advance t pg.nextPage with curRec := ⟨pg.nextPage, (j : Int)⟩ } rec = true
            · rw [if_pos hm]
              exact ⟨⟨rfl, rfl, rfl, rfl, rfl, rfl, rfl⟩, rfl, hmem2, rfl⟩
            · rw [if_neg hm, withTrace_state]
              exact ih _ (hch2 _ rfl) ⟨rfl, hmem2, rfl⟩
    · rcases hgr : pg.getRec ⟨t.curPageNo, (i : Int)⟩ with st2 | rec
      · have hs : scanLoop (F + 1) t =
            (st2, NULLRID, { t with curRec := ⟨t.curPageNo, (i : Int)⟩ }, []) := by
          simp [scanLoop, hcp, hpg, hnl, hgr]
        rw [hs]
        exact ⟨⟨rfl, rfl, rfl, rfl, rfl, rfl, rfl⟩, hcp, hmem, hcd⟩
      · have hs : scanLoop (F + 1) t =
            (if matchRec { t with curRec := ⟨t.curPageNo, (i : Int)⟩ } rec = true
              then ((.OK, ⟨t.curPageNo, (i : Int)⟩,
                { t with curRec := ⟨t.curPageNo, (i : Int)⟩ }, []) :
                  Status × RID × ScanState × List BufOp)
              else scanLoop F { t with curRec := ⟨t.curPageNo, (i : Int)⟩ }) := by
          simp [scanLoop, hcp, hpg, hnl, hgr]
        rw [hs]
        by_cases hm : matchRec { t with curRec := ⟨t.curPageNo, (i : Int)⟩ } rec = true
        · rw [if_pos hm]
          exact ⟨⟨rfl, rfl, rfl, rfl, rfl, rfl, rfl⟩, hcp, hmem, hcd⟩
        · rw [if_neg hm]
          exact ih _ hch ⟨hcp, hmem, hcd⟩

/-- One `scanNext` call preserves `Unmoved` and cursor coherence. -/
theorem scanNextF_inv (chain : List Int) (start : Int) (F : Nat) (t : ScanState)
    (hch : isChainB t.file start chain = true) (hc : Coh chain t) :
    Unmoved t (scanNextF F t).2.2.1 ∧ Coh chain (scanNextF F t).2.2.1 := by
  obtain ⟨hcp, hmem, hcd⟩ := hc
  have h0 := (isChainB_mem t.file chain start hch t.curPageNo hmem).1
  have hs : scanNextF F t = scanLoop F t := by
    simp [scanNextF, not_lt.mpr h0, hcp]
  rw [hs]
  exact scanLoop_inv chain start F t hch ⟨hcp, hmem, hcd⟩

/-- Any number of `scanNext` calls preserves `Unmoved` and coherence. -/
theorem stepsScan_inv (chain : List Int) (start : Int) :
    ∀ (fuels : List Nat) (t : ScanState),
    isChainB t.file start chain = true → Coh chain t →
    Unmoved t (stepsScan fuels t) ∧ Coh chain (stepsScan fuels t) := by
  intro fuels
  induction fuels with
  | nil =>
    intro t hch hc
    exact ⟨⟨rfl, rfl, rfl, rfl, rfl, rfl, rfl⟩, hc⟩
  | cons F rest ih =>
    intro t hch hc
    obtain ⟨hU1, hC1⟩ := scanNextF_inv chain start F t hch hc
    obtain ⟨hf1, hh1, hn1, hd1, hfil1, hmp1, hmr1⟩ := hU1
    obtain ⟨hU2, hC2⟩ := ih (scanNextF F t).2.2.1 (by rw [hf1]; exact hch) hC1
    obtain ⟨hf2, hh2, hn2, hd2, hfil2, hmp2, hmr2⟩ := hU2
    refine ⟨⟨?_, ?_, ?_, ?_, ?_, ?_, ?_⟩, hC2⟩ <;>
      simp [stepsScan, hf1, hh1, hn1, hd1, hfil1, hmp1, hmr1,
        hf2, hh2, hn2, hd2, hfil2, hmp2, hmr2]

/-- Claim C5: after `markScan` at a position P and any number of `scanNext`
calls over a well-formed chain, `resetScan` succeeds and restores the state
exactly to the post-mark state at P, so the next `scanNext` behaves exactly as
it would have at P (it produces the record immediately after P); and when the
cursor is still on the marked page, `resetScan` performs no buffer-pool
operation at all (empty trace). -/
theorem C5_mark_reset (m : ScanState) (chain : List Int) (start : Int)
    (fuels : List Nat) (F2 : Nat)
    (hch : isChainB m.file start chain = true)
    (hcp : m.curPage = some m.curPageNo) (hmem : m.curPageNo ∈ chain)
    (hdirty : m.curDirty = false) :
    (resetScan (stepsScan fuels (markScan m).2)).1 = .OK ∧
    (resetScan (stepsScan fuels (markScan m).2)).2.1 = (markScan m).2 ∧
    ((stepsScan fuels (markScan m).2).curPageNo = m.curPageNo →
      (resetScan (stepsScan fuels (markScan m).2)).2.2 = []) ∧
    scanNextF F2 (resetScan (stepsScan fuels (markScan m).2)).2.1 =
      scanNextF F2 (markScan m).2 := by
  have hm1cp : (markScan m).2.curPage = some (markScan m).2.curPageNo := hcp
  have hm1coh : Coh chain (markScan m).2 := ⟨hm1cp, hmem, hdirty⟩
  obtain ⟨hU, hC⟩ := stepsScan_inv chain start fuels (markScan m).2 hch hm1coh
  obtain ⟨hf, hh, hn, hd, hfil, hmp, hmr⟩ := hU
  obtain ⟨hcp2, hmem2, hcd2⟩ := hC
  have hmk : (stepsScan fuels (markScan m).2).markedPageNo = m.curPageNo := hmp
  have hmkr : (stepsScan fuels (markScan m).2).markedRec = m.curRec := hmr
  obtain ⟨_, pgM, hpgM, _⟩ := isChainB_mem m.file chain start hch m.curPageNo hmem
  have hpgT : pageOf (stepsScan fuels (markScan m).2).file
      (stepsScan fuels (markScan m).2).markedPageNo = some pgM := by
    rw [hmk, hf]
    exact hpgM
  by_cases hpe : (stepsScan fuels (markScan m).2).curPageNo = m.curPageNo
  · have hcond : ¬ ((stepsScan fuels (markScan m).2).markedPageNo ≠
        (stepsScan fuels (markScan m).2).curPageNo) := by
      rw [hmk, hpe]
      simp
    have hres : resetScan (stepsScan fuels (markScan m).2) =
        (.OK, { stepsScan fuels (markScan m).2 with
          curRec := (stepsScan fuels (markScan m).2).markedRec }, []) := by
      simp only [resetScan]
      rw [if_neg hcond]
    have hstate : ({ stepsScan fuels (markScan m).2 with
        curRec := (stepsScan fuels (markScan m).2).markedRec } : ScanState) =
        (markScan m).2 := by
      refine ScanState.ext ?_ ?_ ?_ ?_ ?_ ?_ ?_ ?_ ?_ ?_ ?_
      · exact hf
      · exact hh
      · exact hn
      · exact hd
      · exact hpe
      · exact hcp2.trans (by rw [hpe]; exact hcp.symm)
      · exact hcd2.trans hdirty.symm
      · exact hmkr
      · exact hfil
      · exact hmp
      · exact hmr
    rw [hres, hstate]
    exact ⟨rfl, rfl, fun _ => rfl, rfl⟩
  · have hcond : (stepsScan fuels (markScan m).2).markedPageNo ≠
        (stepsScan fuels (markScan m).2).curPageNo := by
      rw [hmk]
      exact fun hh2 => hpe hh2.symm
    have hres : resetScan (stepsScan fuels (markScan m).2) =
        (.OK, { stepsScan fuels (markScan m).2 with
            curPageNo := (stepsScan fuels (markScan m).2).markedPageNo,
            curRec := (stepsScan fuels (markScan m).2).markedRec,
            curPage := some (stepsScan fuels (markScan m).2).markedPageNo,
            curDirty := false },
          [.unpin (stepsScan fuels (markScan m).2).curPageNo
            (stepsScan fuels (markScan m).2).curDirty,
           .read (stepsScan fuels (markScan m).2).markedPageNo]) := by
      simp only [resetScan]
      rw [if_pos hcond]
      rw [hcp2, hpgT]
      rfl
    have hstate : ({ stepsScan fuels (markScan m).2 with
        curPageNo := (stepsScan fuels (markScan m).2).markedPageNo,
        curRec := (stepsScan fuels (markScan m).2).markedRec,
        curPage := some (stepsScan fuels (markScan m).2).markedPageNo,
        curDirty := false } : ScanState) = (markScan m).2 := by
      refine ScanState.ext ?_ ?_ ?_ ?_ ?_ ?_ ?_ ?_ ?_ ?_ ?_
      · exact hf
      · exact hh
      · exact hn
      · exact hd
      · exact hmk
      · rw [hmk]; exact hcp.symm
      · exact hdirty.symm
      · exact hmkr
      · exact hfil
      · exact hmp
      · exact hmr
    rw [hres, hstate]
    exact ⟨rfl, rfl, fun hh2 => absurd hh2 hpe, rfl⟩

/-- Witness for `C5_mark_reset` at a concrete input: mark after the first
record of the three-page file, scan once more, reset. -/
theorem C5_mark_reset_witness :
    (resetScan (stepsScan [10] (markScan tinyAfterOne).2)).1 = .OK ∧
    (resetScan (stepsScan [10] (markScan tinyAfterOne).2)).2.1 = (markScan tinyAfterOne).2 ∧
    ((stepsScan [10] (markScan tinyAfterOne).2).curPageNo = tinyAfterOne.curPageNo →
      (resetScan (stepsScan [10] (markScan tinyAfterOne).2)).2.2 = []) ∧
    scanNextF 10 (resetScan (stepsScan [10] (markScan tinyAfterOne).2)).2.1 =
      scanNextF 10 (markScan tinyAfterOne).2 :=
  C5_mark_reset tinyAfterOne [2, 3, 4] 2 [10] 10 (by decide) (by decide)
    (by decide) (by decide)

/-! ### C1: the full unfiltered scan -/

theorem find?_eq_head?_filter (l : List Nat) (p : Nat → Bool) :
    l.find? p = (l.filter p).head? := by
  induction l with
  | nil => rfl
  | cons a t ih =>
    by_cases h : p a
    · rw [List.find?_cons_of_pos _ h, List.filter_cons_of_pos h]
      rfl
    · rw [List.find?_cons_of_neg _ h, List.filter_cons_of_neg h]
      exact ih

theorem nextLiveSlot_eq (pg : Page) (j : Int) :
    nextLiveSlot pg j = (liveAfter pg j).head? := by
  unfold nextLiveSlot liveAfter
  exact find?_eq_head?_filter _ _

theorem liveAfter_neg (pg : Page) : liveAfter pg (-1) = liveSlots pg := by
  unfold liveAfter
  apply List.filter_eq_self.mpr
  intro a _
  simp only [decide_eq_true_eq]
  omega

theorem liveSlots_sorted (pg : Page) : (liveSlots pg).Pairwise (· < ·) := by
  unfold liveSlots
  exact (List.pairwise_lt_range _).filter _

theorem filter_step (xs : List Nat) (hs : xs.Pairwise (· < ·)) :
    ∀ (j : Int) (i : Nat) (l2 : List Nat),
    xs.filter (fun a : Nat => decide (j < (a : Int))) = i :: l2 →
    xs.filter (fun a : Nat => decide ((i : Int) < (a : Int))) = l2 := by
  induction xs with
  | nil =>
    intro j i l2 h
    simp at h
  | cons x t ih =>
    intro j i l2 h
    have hx : ∀ a ∈ t, x < a := (List.pairwise_cons.mp hs).1
    have ht : t.Pairwise (· < ·) := (List.pairwise_cons.mp hs).2
    by_cases hc : j < (x : Int)
    · rw [List.filter_cons_of_pos (by simpa using hc)] at h
      injection h with h1 h2
      subst h1
      have htf : t.filter (fun a : Nat => decide (j < (a : Int))) = t :=
        List.filter_eq_self.mpr (fun a ha => by
          simp only [decide_eq_true_eq]
          have := hx a ha
          omega)
      rw [htf] at h2
      subst h2
      rw [List.filter_cons_of_neg (by simp)]
      exact List.filter_eq_self.mpr (fun a ha => by
        simp only [decide_eq_true_eq]
        exact_mod_cast hx a ha)
    · rw [List.filter_cons_of_neg (by simpa using hc)] at h
      have hi : i ∈ t := by
        have hmem : i ∈ t.filter (fun a : Nat => decide (j < (a : Int))) := by
          rw [h]
          exact List.mem_cons_self _ _
        exact List.mem_of_mem_filter hmem
      rw [List.filter_cons_of_neg (by
        simp only [decide_eq_true_eq, not_lt]
        exact_mod_cast le_of_lt (hx i hi))]
      exact ih ht j i l2 h

theorem liveAfter_step (pg : Page) (j : Int) (i : Nat) (l2 : List Nat)
    (h : liveAfter pg j = i :: l2) : liveAfter pg (i : Int) = l2 :=
  filter_step _ (liveSlots_sorted pg) j i l2 h

theorem getRec_live (pg : Page) (pn : Int) (i : Nat) (h : i ∈ liveSlots pg) :
    ∃ r, pg.getRec ⟨pn, (i : Int)⟩ = .ok r := by
  unfold liveSlots at h
  rw [List.mem_filter] at h
  obtain ⟨_, hl⟩ := h
  have hl2 : (pg.slots.getD i none).isSome = true := by simpa using hl
  rcases hsome : pg.slots.getD i none with _ | r
  · rw [hsome] at hl2
    simp at hl2
  · refine ⟨r, ?_⟩
    unfold Page.getRec
    rw [if_pos (show (0 : Int) ≤ (⟨pn, (i : Int)⟩ : RID).slotNo from Int.natCast_nonneg i)]
    rw [show ((⟨pn, (i : Int)⟩ : RID).slotNo).toNat = i from rfl]
    rw [hsome]

theorem matchRec_none (s : ScanState) (rec : Record) (h : s.filter = none) :
    matchRec s rec = true := by
  simp [matchRec, h]

theorem scanNextF_pos (F : Nat) (s : ScanState) (pn : Int)
    (hcp : s.curPage = some pn) (hpno : s.curPageNo = pn) (h0 : 0 ≤ pn) :
    scanNextF F s = scanLoop F s := by
  have hlt : ¬ s.curPageNo < 0 := by rw [hpno]; omega
  simp [scanNextF, hlt, hcp]

theorem isChainB_nil (f : DBFile) (start : Int) :
    isChainB f start [] = true ↔ start = -1 := by
  simp [isChainB]

theorem isChainB_cons (f : DBFile) (start p : Int) (rest : List Int) :
    isChainB f start (p :: rest) = true ↔
    p = start ∧ 0 ≤ p ∧ ∃ pg, pageOf f start = some pg ∧
      isChainB f pg.nextPage rest = true := by
  simp only [isChainB, Bool.and_eq_true, beq_iff_eq, decide_eq_true_eq]
  constructor
  · rintro ⟨⟨h1, h2⟩, h3⟩
    rcases hpg : pageOf f start with _ | pg
    · rw [hpg] at h3
      exact absurd h3 (by simp)
    · rw [hpg] at h3
      exact ⟨h1, h2, pg, rfl, h3⟩
  · rintro ⟨h1, h2, pg, hpg, h3⟩
    refine ⟨⟨h1, h2⟩, ?_⟩
    rw [hpg]
    exact h3

theorem chainRIDs_cons (f : DBFile) (p : Int) (rest : List Int) (pg : Page)
    (h : pageOf f p = some pg) :
    chainRIDs f (p :: rest) = liveRIDs p pg ++ chainRIDs f rest := by
  simp [chainRIDs, h]

/-- One in-page step of the loop: with no filter, the first live slot after
`curRec` is produced immediately. -/
theorem scanLoop_hit (F : Nat) (s : ScanState) (pn : Int) (pg : Page)
    (i : Nat) (l2 : List Nat)
    (hcp : s.curPage = some pn) (hpg : pageOf s.file pn = some pg)
    (hfil : s.filter = none)
    (hla : liveAfter pg s.curRec.slotNo = i :: l2) :
    scanLoop (F + 1) s =
      (.OK, ⟨pn, (i : Int)⟩, { s with curRec := ⟨pn, (i : Int)⟩ }, []) := by
  have hnl : nextLiveSlot pg s.curRec.slotNo = some i := by
    rw [nextLiveSlot_eq, hla]
    rfl
  have hi : i ∈ liveSlots pg := by
    have hmem : i ∈ liveAfter pg s.curRec.slotNo := by
      rw [hla]
      exact List.mem_cons_self _ _
    unfold liveAfter at hmem
    exact List.mem_of_mem_filter hmem
  obtain ⟨r, hr⟩ := getRec_live pg pn i hi
  have hm : matchRec { s with curPage := some pn, curRec := (⟨pn, (i : Int)⟩ : RID) } r = true :=
    matchRec_none _ _ hfil
  have hm2 : matchRec { s with curRec := (⟨pn, (i : Int)⟩ : RID) } r = true :=
    matchRec_none _ _ hfil
  simp [scanLoop, hcp, hpg, hnl, hr, hm, hm2]

/-- The page-advance part of one `scanNext` call over a well-formed chain,
with the current page exhausted: if the remaining chain holds no live record
the call fails with `FILEEOF` (skipping any empty pages on the way); otherwise
it produces exactly the first remaining RID and lands positioned on it. -/
theorem scanLoop_chain : ∀ (rest : List Int) (F : Nat) (s : ScanState) (pn : Int) (pg : Page),
    s.curPage = some pn → s.curPageNo = pn → pageOf s.file pn = some pg →
    s.filter = none → liveAfter pg s.curRec.slotNo = [] →
    isChainB s.file pg.nextPage rest = true → rest.length + 1 ≤ F →
    (chainRIDs s.file rest = [] →
      ∃ s1 tr, scanLoop F s = (.FILEEOF, NULLRID, s1, tr)) ∧
    (∀ r rs, chainRIDs s.file rest = r :: rs →
      ∃ s1 tr pg1 rest1, scanLoop F s = (.OK, r, s1, tr) ∧
        s1.curPage = some r.pageNo ∧ s1.curPageNo = r.pageNo ∧ 0 ≤ r.pageNo ∧
        pageOf s.file r.pageNo = some pg1 ∧ s1.curRec = r ∧ s1.file = s.file ∧
        s1.filter = none ∧
        isChainB s.file pg1.nextPage rest1 = true ∧
        (liveAfter pg1 r.slotNo).map (fun i : Nat => (⟨r.pageNo, (i : Int)⟩ : RID)) ++
          chainRIDs s.file rest1 = rs ∧
        rest1.length ≤ rest.length) := by
  intro rest
  induction rest with
  | nil =>
    intro F s pn pg hcp hpno hpg hfil hla hch hF
    have hnp : pg.nextPage = -1 := (isChainB_nil _ _).mp hch
    have hnl : nextLiveSlot pg s.curRec.slotNo = none := by
      rw [nextLiveSlot_eq, hla]
      rfl
    obtain ⟨F1, rfl⟩ : ∃ F1, F = F1 + 1 := ⟨F - 1, by omega⟩
    have hs : scanLoop (F1 + 1) s = (.FILEEOF, NULLRID, s, []) := by
      simp [scanLoop, hcp, hpg, hnl, hnp]
    exact ⟨fun _ => ⟨s, [], hs⟩, fun r rs h => by simp [chainRIDs] at h⟩
  | cons p2 rest2 ihr =>
    intro F s pn pg hcp hpno hpg hfil hla hch hF
    obtain ⟨hp2, h0, pg2, hpg2, hch2⟩ := (isChainB_cons _ _ _ _).mp hch
    subst hp2
    have hnp : pg.nextPage ≠ -1 := by omega
    have hnl : nextLiveSlot pg s.curRec.slotNo = none := by
      rw [nextLiveSlot_eq, hla]
      rfl
    obtain ⟨F1, rfl⟩ : ∃ F1, F = F1 + 1 := ⟨F - 1, by omega⟩
    have hF1 : rest2.length + 1 ≤ F1 := by
      simp only [List.length_cons] at hF
      omega
    rcases hls : liveSlots pg2 with _ | ⟨j, tl⟩
    · -- empty next page: the loop continues past it
      have hfs : pg2.firstSlot = none := by
        unfold Page.firstSlot
        rw [hls]
        rfl
      have hs : scanLoop (F1 + 1) s =
          withTrace [.unpin s.curPageNo s.curDirty, .read pg.nextPage]
            (scanLoop F1 (advance s pg.nextPage)) := by
        simp [scanLoop, hcp, hpg, hnl, hnp, hpg2, hfs]
      have hla2 : liveAfter pg2 (advance s pg.nextPage).curRec.slotNo = [] := by
        rw [show (advance s pg.nextPage).curRec.slotNo = (-1 : Int) from rfl]
        rw [liveAfter_neg, hls]
      have hcr : chainRIDs s.file (pg.nextPage :: rest2) = chainRIDs s.file rest2 := by
        rw [chainRIDs_cons _ _ _ _ hpg2]
        simp [liveRIDs, hls]
      obtain ⟨hE, hH⟩ := ihr F1 (advance s pg.nextPage) pg.nextPage pg2
        rfl rfl hpg2 hfil hla2 hch2 hF1
      constructor
      · intro hnil
        rw [hcr] at hnil
        obtain ⟨s1, tr1, h1⟩ := hE hnil
        exact ⟨s1, _, by rw [hs, h1]; rfl⟩
      · intro r rs h
        rw [hcr] at h
        obtain ⟨s1, tr1, pg1, rest1, h1, hA, hB, hC, hD, hEq, hFq, hG, hI, hJ, hK⟩ :=
          hH r rs h
        refine ⟨s1, _, pg1, rest1, by rw [hs, h1]; rfl,
          hA, hB, hC, hD, hEq, hFq, hG, hI, hJ, ?_⟩
        simp only [List.length_cons]
        omega
    · -- next page holds a record: it is produced immediately
      have hfs : pg2.firstSlot = some j := by
        unfold Page.firstSlot
        rw [hls]
        rfl
      have hj : j ∈ liveSlots pg2 := by
        rw [hls]
        exact List.mem_cons_self _ _
      obtain ⟨rc, hrc⟩ := getRec_live pg2 pg.nextPage j hj
      have hm : matchRec
          { advance s pg.nextPage with curRec := (⟨pg.nextPage, (j : Int)⟩ : RID) } rc = true :=
        matchRec_none _ _ hfil
      have hs : scanLoop (F1 + 1) s =
          (.OK, ⟨pg.nextPage, (j : Int)⟩,
            { advance s pg.nextPage with curRec := ⟨pg.nextPage, (j : Int)⟩ },
            [.unpin s.curPageNo s.curDirty, .read pg.nextPage]) := by
        simp [scanLoop, hcp, hpg, hnl, hnp, hpg2, hfs, hrc, hm]
      have htl : liveAfter pg2 ((j : Nat) : Int) = tl := by
        apply liveAfter_step pg2 (-1)
        rw [liveAfter_neg, hls]
      constructor
      · intro hnil
        rw [chainRIDs_cons _ _ _ _ hpg2] at hnil
        simp [liveRIDs, hls] at hnil
      · intro r rs h
        rw [chainRIDs_cons _ _ _ _ hpg2] at h
        unfold liveRIDs at h
        rw [hls] at h
        simp only [List.map_cons, List.cons_append] at h
        injection h with h1 h2
        subst h1
        refine ⟨{ advance s pg.nextPage with curRec := ⟨pg.nextPage, (j : Int)⟩ },
          _, pg2, rest2, hs, rfl, rfl, h0, hpg2, rfl, rfl, hfil, hch2, ?_, ?_⟩
        · rw [show ((⟨pg.nextPage, (j : Int)⟩ : RID)).slotNo = ((j : Nat) : Int) from rfl]
          rw [htl]
          exact h2
        · exact Nat.le_succ _

/-- Driving the scan: from a positioned cursor over a well-formed chain with
no filter, `runScanF` produces exactly the remaining RIDs (current page after
`curRec`, then the rest of the chain) and then fails with `FILEEOF`. -/
theorem runScan_chain : ∀ (rem : List RID) (n F : Nat) (s : ScanState)
    (pn : Int) (pg : Page) (rest : List Int),
    s.curPage = some pn → s.curPageNo = pn → 0 ≤ pn →
    pageOf s.file pn = some pg → s.filter = none →
    isChainB s.file pg.nextPage rest = true →
    (liveAfter pg s.curRec.slotNo).map (fun i : Nat => (⟨pn, (i : Int)⟩ : RID)) ++
      chainRIDs s.file rest = rem →
    rest.length + 1 ≤ F → rem.length + 1 ≤ n →
    (runScanF n F s).1 = rem ∧ (runScanF n F s).2.1 = .FILEEOF := by
  intro rem
  induction rem with
  | nil =>
    intro n F s pn pg rest hcp hpno h0 hpg hfil hch hrem hF hn
    obtain ⟨hla, hcr⟩ := List.append_eq_nil.mp hrem
    have hla2 : liveAfter pg s.curRec.slotNo = [] := List.map_eq_nil.mp hla
    obtain ⟨n1, rfl⟩ : ∃ n1, n = n1 + 1 := ⟨n - 1, by omega⟩
    obtain ⟨s1, tr, hsl⟩ :=
      (scanLoop_chain rest F s pn pg hcp hpno hpg hfil hla2 hch hF).1 hcr
    have hsn : scanNextF F s = (.FILEEOF, NULLRID, s1, tr) := by
      rw [scanNextF_pos F s pn hcp hpno h0]
      exact hsl
    constructor <;> simp [runScanF, hsn]
  | cons r rem2 ih =>
    intro n F s pn pg rest hcp hpno h0 hpg hfil hch hrem hF hn
    obtain ⟨n1, rfl⟩ : ∃ n1, n = n1 + 1 := ⟨n - 1, by omega⟩
    rcases hla : liveAfter pg s.curRec.slotNo with _ | ⟨i, l2⟩
    · -- the next record comes from a later page
      rw [hla] at hrem
      simp only [List.map_nil, List.nil_append] at hrem
      obtain ⟨s1, tr, pg1, rest1, hsl, hA, hB, hC, hD, hEq, hFq, hG, hI, hJ, hK⟩ :=
        (scanLoop_chain rest F s pn pg hcp hpno hpg hfil hla hch hF).2 r rem2 hrem
      have hsn : scanNextF F s = (.OK, r, s1, tr) := by
        rw [scanNextF_pos F s pn hcp hpno h0]
        exact hsl
      have hrem2 : (liveAfter pg1 s1.curRec.slotNo).map
          (fun i : Nat => (⟨r.pageNo, (i : Int)⟩ : RID)) ++ chainRIDs s1.file rest1 = rem2 := by
        rw [hEq, hFq]
        exact hJ
      obtain ⟨hres1, hres2⟩ := ih n1 F s1 r.pageNo pg1 rest1 hA hB hC
        (by rw [hFq]; exact hD) hG (by rw [hFq]; exact hI) hrem2
        (by omega) (by simp only [List.length_cons] at hn; omega)
      constructor
      · simp only [runScanF, hsn]
        rw [hres1]
      · simp only [runScanF, hsn]
        exact hres2
    · -- the next record is on the current page
      rw [hla] at hrem
      simp only [List.map_cons, List.cons_append] at hrem
      injection hrem with h1 h2
      obtain ⟨F1, rfl⟩ : ∃ F1, F = F1 + 1 := ⟨F - 1, by omega⟩
      have hhit := scanLoop_hit F1 s pn pg i l2 hcp hpg hfil hla
      have hsn : scanNextF (F1 + 1) s =
          (.OK, r, { s with curRec := ⟨pn, (i : Int)⟩ }, []) := by
        rw [scanNextF_pos (F1 + 1) s pn hcp hpno h0, hhit, h1]
      have hla2 : liveAfter pg
          (({ s with curRec := (⟨pn, (i : Int)⟩ : RID) } : ScanState)).curRec.slotNo = l2 := by
        rw [show (({ s with curRec := (⟨pn, (i : Int)⟩ : RID) } : ScanState)).curRec.slotNo =
          ((i : Nat) : Int) from rfl]
        exact liveAfter_step pg s.curRec.slotNo i l2 hla
      obtain ⟨hres1, hres2⟩ := ih n1 (F1 + 1) { s with curRec := ⟨pn, (i : Int)⟩ } pn pg rest
        hcp hpno h0 hpg hfil hch (by rw [hla2]; exact h2) hF
        (by simp only [List.length_cons] at hn; omega)
      constructor
      · simp only [runScanF, hsn]
        rw [hres1]
      · simp only [runScanF, hsn]
        exact hres2

/-- Claim C1: a full unfiltered scan of a freshly opened heap-file handle
(`startScan` with a null filter, then repeated `scanNext`) produces exactly
the RIDs of the live records, in page-chain order and then slot order, each
exactly once, and the call after the last record fails with `FILEEOF`; empty
pages anywhere in the chain (including in the middle) are skipped by the page
advance rather than terminating the scan, as the general statement over
arbitrary well-formed chains includes chains with empty interior pages. -/
theorem C1_full_unfiltered_scan (f : DBFile) (hpn : Int) (hdr : FileHdrPage)
    (chain : List Int) (off len : Int) (ty : Datatype) (o : Operator) (n F : Nat)
    (hch : isChainB f hdr.firstPage chain = true) (hne : chain ≠ [])
    (hn : (chainRIDs f chain).length + 1 ≤ n) (hF : chain.length + 1 ≤ F) :
    (runScanF n F (startScan off len ty none o (freshScan f hpn hdr)).2).1 =
      chainRIDs f chain ∧
    (runScanF n F (startScan off len ty none o (freshScan f hpn hdr)).2).2.1 =
      .FILEEOF := by
  have hstart : (startScan off len ty none o (freshScan f hpn hdr)).2 =
      freshScan f hpn hdr := rfl
  rw [hstart]
  cases chain with
  | nil => exact absurd rfl hne
  | cons p1 rest =>
    obtain ⟨hp1, h0, pg1, hpg1, hch1⟩ := (isChainB_cons _ _ _ _).mp hch
    subst hp1
    apply runScan_chain (chainRIDs f (hdr.firstPage :: rest)) n F
      (freshScan f hpn hdr) hdr.firstPage pg1 rest rfl rfl h0 hpg1 rfl hch1
    · rw [show (freshScan f hpn hdr).curRec.slotNo = (-1 : Int) from rfl]
      rw [liveAfter_neg, chainRIDs_cons _ _ _ _ hpg1]
      unfold liveRIDs
      rfl
    · simp only [List.length_cons] at hF
      omega
    · exact hn

/-- Witness for `C1_full_unfiltered_scan` at a concrete input: the three-page
file whose middle page is empty. -/
theorem C1_full_unfiltered_scan_witness :
    (runScanF 4 4 (startScan 0 0 .STRING none .EQ (freshScan tinyFile 1 tinyHdr)).2).1 =
      chainRIDs tinyFile [2, 3, 4] ∧
    (runScanF 4 4 (startScan 0 0 .STRING none .EQ (freshScan tinyFile 1 tinyHdr)).2).2.1 =
      .FILEEOF :=
  C1_full_unfiltered_scan tinyFile 1 tinyHdr [2, 3, 4] 0 0 .STRING .EQ 4 4
    (by decide) (by decide) (by decide) (by decide)

end HF
